import Mathlib

/-!
Verification development for the SmartDocs core: the section-aware,
token-bounded chunker (`backend/app/services/chunking_service.py`) and the
hybrid RAG retrieval tool (`backend/app/services/rag_tool.py`).

The Python code is shallowly embedded: pure functions become Lean
functions over `String`/`List Char`; the external token counter (tiktoken)
is an explicit parameter `tok : String → Nat` (the spec itself, section 4.3,
declares the token counter a swappable strategy that chunking logic must not
depend on); the SQL hybrid query is modelled relationally, with the
database's vector-distance and full-text operators as explicit parameters
and the unspecified order of equal-key rows under `ORDER BY`/`LIMIT`
captured by a selection relation rather than a fixed function.
-/

namespace SmartDocs

/-- Python whitespace for `str.strip` / regex `\s` (ASCII fragment:
space, tab, newline, carriage return, vertical tab, form feed). -/
def pyIsSpace (c : Char) : Bool :=
  c = ' ' ∨ c = '\t' ∨ c = '\n' ∨ c = '\r' ∨ c = '\x0b' ∨ c = '\x0c'

/-- `str.strip()` on a list of characters. -/
def pyStripChars (l : List Char) : List Char :=
  ((l.dropWhile pyIsSpace).reverse.dropWhile pyIsSpace).reverse

/-- `str.strip()`. -/
def pyStrip (s : String) : String :=
  String.mk (pyStripChars s.data)

/-- Python slicing `s[:n]` (first `n` characters). -/
def strTake (s : String) (n : Nat) : String :=
  String.mk (s.data.take n)

/-- Python slicing `s[a:b]`. -/
def strSlice (s : String) (a b : Nat) : String :=
  String.mk ((s.data.drop a).take (b - a))

/-- `text.strip().split("\n")[0]`: first line of the stripped text. -/
def firstLineOf (s : String) : String :=
  String.mk ((pyStrip s).data.takeWhile (fun c => ¬ (c = '\n')))

/-- Python `sep.join(parts)`. -/
def joinWith (sep : String) : List String → String
  | [] => ""
  | [x] => x
  | x :: y :: rest => x ++ sep ++ joinWith sep (y :: rest)

/-- `"\n\n".join(parts)`. -/
def joinNN (parts : List String) : String :=
  joinWith "\n\n" parts

/-- `" ".join(parts)`. -/
def joinSp (parts : List String) : String :=
  joinWith " " parts

/-!
## Regex splitting

`re.split(r"\n\s*\n", text)` — the scan finds, left to right, a newline
followed (greedily) by whitespace ending in a newline; the match runs from
the first newline through the last newline of the whitespace run. The parts
between matches are returned. `lastNLofRun l` returns the index of the last
`'\n'` inside the leading whitespace run of `l`, if any: that is exactly how
far the greedy `\s*\n` tail of the pattern reaches after an initial `'\n'`.
-/

/-- Index of the last newline in the leading whitespace run of `l`. -/
def lastNLofRun (l : List Char) : Option Nat :=
  let run := l.takeWhile pyIsSpace
  match run.reverse.findIdx? (fun c => c = '\n') with
  | none => none
  | some j => some (run.length - 1 - j)

/-- Splitter for `re.split(r"\n\s*\n", text)`; `acc` is the reversed
current part, `fuel` bounds the recursion (callers pass the text length,
which suffices because every step consumes at least one character). -/
def splitParasGo : Nat → List Char → List Char → List (List Char)
  | _, [], acc => [acc.reverse]
  | 0, l, acc => [acc.reverse ++ l]
  | fuel + 1, c :: rest, acc =>
    if c = '\n' then
      match lastNLofRun rest with
      | some i => acc.reverse :: splitParasGo fuel (rest.drop (i + 1)) []
      | none => splitParasGo fuel rest (c :: acc)
    else splitParasGo fuel rest (c :: acc)

/-- `re.split(r"\n\s*\n", text)`. -/
def pySplitParas (s : String) : List String :=
  (splitParasGo s.data.length s.data []).map String.mk

/-- Splitter for `re.split(r"(?<=[.!?])\s+", para)`: cut right after a
`.`/`!`/`?` that is followed by whitespace, consuming the whitespace run. -/
def splitSentGo : Nat → List Char → List Char → List (List Char)
  | _, [], acc => [acc.reverse]
  | 0, l, acc => [acc.reverse ++ l]
  | fuel + 1, c :: rest, acc =>
    if (c = '.' ∨ c = '!' ∨ c = '?') ∧ (match rest.head? with
        | some d => pyIsSpace d
        | none => false) = true then
      (c :: acc).reverse :: splitSentGo fuel (rest.dropWhile pyIsSpace) []
    else splitSentGo fuel rest (c :: acc)

/-- `re.split(r"(?<=[.!?])\s+", para)`. -/
def pySplitSents (s : String) : List String :=
  (splitSentGo s.data.length s.data []).map String.mk

/-!
## Section boundary patterns (`_SECTION_PATTERNS`)

Each Python pattern is anchored with `^` under `re.MULTILINE`. A matcher
computes the greedy match length at the head of the remaining character
list; `finditerGo` reproduces `re.finditer`'s left-to-right non-overlapping
scan (after a match of length `L` at `i`, scanning resumes at `i + max L 1`).
-/

/-- Uppercase letters of the heading patterns: `A-ZÀÁÂÃÉÊÍÓÔÕÚÇ`. -/
def pyUpperLetter (c : Char) : Bool :=
  ('A' ≤ c ∧ c ≤ 'Z') ∨ c ∈ ['À', 'Á', 'Â', 'Ã', 'É', 'Ê', 'Í', 'Ó', 'Ô', 'Õ', 'Ú', 'Ç']

/-- ASCII digit, regex `\d`. -/
def pyIsDigit (c : Char) : Bool :=
  '0' ≤ c ∧ c ≤ '9'

/-- Length of the leading whitespace run (`\s*`). -/
def wsRunLen (l : List Char) : Nat :=
  (l.takeWhile pyIsSpace).length

/-- Matcher for a word alternation followed by `\s+`, e.g.
`(?:CLÁUSULA|Cláusula|CLAUSULA|Clausula)\s+`: the first alternative that is
a prefix and is followed by at least one whitespace character wins. -/
def wordThenWS (alts : List (List Char)) (l : List Char) : Option Nat :=
  match alts with
  | [] => none
  | w :: rest =>
    if w.isPrefixOf l then
      let ws := wsRunLen (l.drop w.length)
      if ws ≥ 1 then some (w.length + ws) else wordThenWS rest l
    else wordThenWS rest l

/-- `^(?:CLÁUSULA|Cláusula|CLAUSULA|Clausula)\s+` (without the anchor). -/
def clausulaLen (l : List Char) : Option Nat :=
  wordThenWS ["CLÁUSULA".data, "Cláusula".data, "CLAUSULA".data, "Clausula".data] l

/-- `^(?:ARTIGO|Artigo|Art\.?)\s+`: the `Art\.?` alternative greedily takes
the optional dot, backtracking to the dotless form if `\s+` then fails. -/
def artigoLen (l : List Char) : Option Nat :=
  match wordThenWS ["ARTIGO".data, "Artigo".data] l with
  | some n => some n
  | none =>
    if "Art".data.isPrefixOf l then
      let rest := l.drop 3
      let withDot :=
        match rest.head? with
        | some '.' =>
          let ws := wsRunLen (rest.drop 1)
          if ws ≥ 1 then some (4 + ws) else none
        | _ => none
      match withDot with
      | some n => some n
      | none =>
        let ws := wsRunLen rest
        if ws ≥ 1 then some (3 + ws) else none
    else none

/-- `^(?:CAPÍTULO|Capítulo|CAPITULO|Capitulo)\s+`. -/
def capituloLen (l : List Char) : Option Nat :=
  wordThenWS ["CAPÍTULO".data, "Capítulo".data, "CAPITULO".data, "Capitulo".data] l

/-- `^(?:SEÇÃO|Seção|SECAO|Secao)\s+`. -/
def secaoLen (l : List Char) : Option Nat :=
  wordThenWS ["SEÇÃO".data, "Seção".data, "SECAO".data, "Secao".data] l

/-- `^(?:PARÁGRAFO|Parágrafo|PARAGRAFO|Paragrafo|§\s*\d)`: the word
alternatives need no trailing context; the `§` form takes optional
whitespace then one digit. -/
def paragrafoLen (l : List Char) : Option Nat :=
  let words := ["PARÁGRAFO".data, "Parágrafo".data, "PARAGRAFO".data, "Paragrafo".data]
  match words.find? (fun w => w.isPrefixOf l) with
  | some w => some w.length
  | none =>
    match l.head? with
    | some '§' =>
      let ws := wsRunLen (l.drop 1)
      match (l.drop (1 + ws)).head? with
      | some d => if pyIsDigit d then some (1 + ws + 1) else none
      | none => none
    | _ => none

/-- `re.MULTILINE` anchor `^`: position 0 or right after a newline. -/
def lineStartAt (s : List Char) : Nat → Bool
  | 0 => true
  | p + 1 => s.get? p = some '\n'

/-- Does `$` (MULTILINE) match at absolute position `pos` of `s`? -/
def isLineEnd (s : List Char) (pos : Nat) : Bool :=
  pos ≥ s.length ∨ s.get? pos = some '\n'

/-- Greedy search for the `[A-ZÀÁÂÃÉÊÍÓÔÕÚÇ\s]{3,}$` tail of the uppercase
heading pattern: among lengths `3 ≤ len ≤ bound` (all within the class run),
pick the largest whose end position is a line end. -/
def findDollar (s : List Char) (base : Nat) : Nat → Option Nat
  | 0 => none
  | m + 1 =>
    if m + 1 ≥ 3 ∧ isLineEnd s (base + (m + 1)) = true then some (m + 1)
    else findDollar s base m

/-- `^(?:D[OAE]S?\s+[A-ZÀÁÂÃÉÊÍÓÔÕÚÇ][A-ZÀÁÂÃÉÊÍÓÔÕÚÇ\s]{3,})$` at absolute
position `pos` of `s` (the `$` needs the absolute position; `\s` makes the
character class able to cross newlines, and the greedy tail backtracks to
the last line end inside the class run). -/
def uppercaseHeadingLen (s : List Char) (pos : Nat) : Option Nat :=
  if ¬ lineStartAt s pos then none else
  let l := s.drop pos
  match l with
  | 'D' :: v :: rest =>
    if v = 'O' ∨ v = 'A' ∨ v = 'E' then
      let afterVowel (k : Nat) (tail : List Char) : Option Nat :=
        let ws := wsRunLen tail
        if ws ≥ 1 then
          match (tail.drop ws).head? with
          | some u =>
            if pyUpperLetter u then
              let headLen := k + ws + 1
              let run := ((tail.drop ws).drop 1).takeWhile
                (fun c => pyUpperLetter c ∨ pyIsSpace c)
              match findDollar s (pos + headLen) run.length with
              | some m => some (headLen + m)
              | none => none
            else none
          | none => none
        else none
      match rest with
      | 'S' :: rest2 =>
        match afterVowel 3 rest2 with
        | some n => some n
        | none => afterVowel 2 ('S' :: rest2)
      | _ => afterVowel 2 rest
    else none
  | _ => none

/-- Backtracking tail of the numbered-outline pattern after the leading
digits: `(?:\.\d+)*\.\s+[A-ZÁÀÂÃÉÊÍÓÔÕÚÇ]`, greedily taking `.digits`
groups and falling back to the final `.\s+uppercase` requirement. -/
def numberedTail : Nat → List Char → Option Nat
  | 0, _ => none
  | fuel + 1, l =>
    let base :=
      match l.head? with
      | some '.' =>
        let ws := wsRunLen (l.drop 1)
        if ws ≥ 1 then
          match (l.drop (1 + ws)).head? with
          | some u => if pyUpperLetter u then some (1 + ws + 1) else none
          | none => none
        else none
      | _ => none
    match l.head? with
    | some '.' =>
      let d := ((l.drop 1).takeWhile pyIsDigit).length
      if d ≥ 1 then
        match numberedTail fuel (l.drop (1 + d)) with
        | some k => some (1 + d + k)
        | none => base
      else base
    | _ => base

/-- `^\d+(?:\.\d+)*\.\s+[A-ZÁÀÂÃÉÊÍÓÔÕÚÇ]` (without the anchor). -/
def numberedLen (l : List Char) : Option Nat :=
  let d := (l.takeWhile pyIsDigit).length
  if d ≥ 1 then
    match numberedTail l.length (l.drop d) with
    | some k => some (d + k)
    | none => none
  else none

/-- One `_SECTION_PATTERNS` entry as a match-length function at an absolute
position (all seven patterns are `^`-anchored). -/
def patAt (plen : List Char → Option Nat) (s : List Char) (i : Nat) : Option Nat :=
  if lineStartAt s i then plen (s.drop i) else none

/-- `re.finditer` start positions: scan left to right, resuming after each
match (or one past it when the match is empty). -/
def finditerGo (mlen : List Char → Nat → Option Nat) (s : List Char) :
    Nat → Nat → List Nat
  | 0, _ => []
  | fuel + 1, i =>
    if i > s.length then []
    else
      match mlen s i with
      | some L => i :: finditerGo mlen s fuel (i + max L 1)
      | none => finditerGo mlen s fuel (i + 1)

/-- Start positions of all matches of one anchored pattern. -/
def patStarts (plen : List Char → Option Nat) (s : List Char) : List Nat :=
  finditerGo (patAt plen) s (s.length + 1) 0

/-- `_find_section_boundaries`: the union over all seven patterns of the
match start positions, deduplicated and sorted ascending
(Python `sorted(set(...))`). -/
def findSectionBoundaries (text : String) : List Nat :=
  let s := text.data
  let all :=
    patStarts clausulaLen s ++ patStarts artigoLen s ++
    patStarts capituloLen s ++ patStarts secaoLen s ++
    patStarts paragrafoLen s ++
    finditerGo uppercaseHeadingLen s (s.length + 1) 0 ++
    patStarts numberedLen s
  (all.dedup).insertionSort (fun a b => a ≤ b)

/-- `_split_into_sections`: no boundaries — the whole text is one block
(when non-blank); otherwise the non-blank stripped preamble followed by the
stripped non-blank boundary-to-boundary spans. -/
def splitIntoSections (text : String) : List String :=
  let boundaries := findSectionBoundaries text
  match boundaries with
  | [] => if pyStrip text ≠ "" then [text] else []
  | b0 :: _ =>
    let preamble :=
      if b0 > 0 then
        let p := pyStrip (strTake text b0)
        if p ≠ "" then [p] else []
      else []
    let ends := boundaries.tail ++ [text.data.length]
    let spans := (boundaries.zip ends).map (fun se => pyStrip (strSlice text se.1 se.2))
    preamble ++ spans.filter (fun sec => sec ≠ "")

/-!
## Section classification (`_HEADING_CLASSIFIER`, `_classify_section`)

The classifier patterns are unanchored `re.IGNORECASE` searches over the
section's first line; case folding is modelled on the letters the patterns
use (ASCII plus the accented uppercase vowels and Ç).
-/

/-- Case folding for the classifier's `re.IGNORECASE` searches. -/
def lowerChar (c : Char) : Char :=
  if 'A' ≤ c ∧ c ≤ 'Z' then Char.ofNat (c.toNat + 32)
  else if c = 'À' then 'à' else if c = 'Á' then 'á'
  else if c = 'Â' then 'â' else if c = 'Ã' then 'ã'
  else if c = 'É' then 'é' else if c = 'Ê' then 'ê'
  else if c = 'Í' then 'í' else if c = 'Ó' then 'ó'
  else if c = 'Ô' then 'ô' else if c = 'Õ' then 'õ'
  else if c = 'Ú' then 'ú' else if c = 'Ç' then 'ç'
  else c

/-- Case-insensitive substring test (`pattern.search` for a literal word). -/
def containsCI (hay : String) (needle : String) : Bool :=
  ((hay.data.map lowerChar).tails).any (fun t => (needle.data.map lowerChar).isPrefixOf t)

/-- `\s+\d` after a matched word in the `artigo` classifier. -/
def wsThenDigit (l : List Char) : Bool :=
  let ws := wsRunLen l
  ws ≥ 1 ∧ (match (l.drop ws).head? with
    | some d => pyIsDigit d
    | none => false) = true

/-- One position of the `(?:ARTIGO|Artigo|Art\.?)\s+\d` search (input
already lowercased). -/
def artigoHere (l : List Char) : Bool :=
  ("artigo".data.isPrefixOf l ∧ wsThenDigit (l.drop 6)) ∨
  ("art".data.isPrefixOf l ∧
    ((match (l.drop 3).head? with
      | some '.' => wsThenDigit (l.drop 4)
      | _ => false) = true ∨ wsThenDigit (l.drop 3)))

/-- Unanchored scan for the `artigo` classifier pattern. -/
def artigoScan : List Char → Bool
  | [] => artigoHere []
  | c :: rest => artigoHere (c :: rest) ∨ artigoScan rest

/-- The classifier loop of `_classify_section`: try the `_HEADING_CLASSIFIER`
patterns in insertion order on the first line, defaulting to `texto_geral`. -/
def classifyFirstLine (fl : String) : String :=
  if containsCI fl "cláusula" ∨ containsCI fl "clausula" then "cláusula"
  else if artigoScan (fl.data.map lowerChar) then "artigo"
  else if containsCI fl "capítulo" ∨ containsCI fl "capitulo" then "capítulo"
  else if containsCI fl "seção" ∨ containsCI fl "secao" then "seção"
  else if containsCI fl "parágrafo" ∨ containsCI fl "§" then "parágrafo"
  else "texto_geral"

/-- `_classify_section`: inspect the first line of the stripped text
against the classifier table in insertion order. -/
def classifySection (text : String) : String :=
  classifyFirstLine (if pyStrip text ≠ "" then firstLineOf text else "")

/-!
## Token-bounded splitting (`_split_long_text`) and `create_chunks`

`tok : String → Nat` stands for `_count_tokens` (tiktoken `cl100k_base`),
an external collaborator kept abstract; the spec (section 4.3) requires the
chunking logic to work for any such counting strategy.
-/

/-- The overlap loop of the sentence branch: walk `reversed(sent_parts)`,
adding each sentence's tokens before the check and keeping the sentence
only while the running total stays within `overlap_tokens`; returns the
kept suffix in original order together with its token sum (the source
recomputes `sent_tokens` as exactly that sum). -/
def sentOverlapGo (tok : String → Nat) (overlap_tokens : Nat) :
    List String → Nat → List String → List String × Nat
  | [], t, acc => (acc, t)
  | s :: rest, t, acc =>
    let t' := t + tok s
    if t' > overlap_tokens then (acc, t)
    else sentOverlapGo tok overlap_tokens rest t' (s :: acc)

/-- See `sentOverlapGo`. -/
def sentOverlap (tok : String → Nat) (overlap_tokens : Nat) (parts : List String) :
    List String × Nat :=
  sentOverlapGo tok overlap_tokens parts.reverse 0 []

/-- The overlap loop of the paragraph branch: check before keeping, so the
kept suffix's token sum never exceeds `overlap_tokens`. -/
def paraOverlapGo (tok : String → Nat) (overlap_tokens : Nat) :
    List String → Nat → List String → List String × Nat
  | [], t, acc => (acc, t)
  | p :: rest, t, acc =>
    let pt := tok p
    if t + pt > overlap_tokens then (acc, t)
    else paraOverlapGo tok overlap_tokens rest (t + pt) (p :: acc)

/-- See `paraOverlapGo`. -/
def paraOverlap (tok : String → Nat) (overlap_tokens : Nat) (parts : List String) :
    List String × Nat :=
  paraOverlapGo tok overlap_tokens parts.reverse 0 []

/-- The sentence accumulation loop of `_split_long_text` (state:
`sent_parts`, `sent_tokens`); flushes `" ".join(sent_parts)` before a
sentence that would overflow `max_tokens`, seeding the next buffer with the
overlap suffix, and flushes the trailing buffer at the end. -/
def sentLoop (tok : String → Nat) (max_tokens overlap_tokens : Nat) :
    List String → List String → Nat → List String
  | [], sp, _ => if sp ≠ [] then [joinSp sp] else []
  | sent :: rest, sp, spT =>
    let st := tok sent
    if spT + st > max_tokens ∧ sp ≠ [] then
      let ov := sentOverlap tok overlap_tokens sp
      joinSp sp :: sentLoop tok max_tokens overlap_tokens rest (ov.1 ++ [sent]) (ov.2 + st)
    else sentLoop tok max_tokens overlap_tokens rest (sp ++ [sent]) (spT + st)

/-- The oversized-paragraph branch: split the paragraph into sentences and
run the sentence accumulation loop. -/
def sentencePath (tok : String → Nat) (max_tokens overlap_tokens : Nat)
    (para : String) : List String :=
  sentLoop tok max_tokens overlap_tokens (pySplitSents para) [] 0

/-- The paragraph loop of `_split_long_text` (state: `current_parts`,
`current_tokens`): an oversized paragraph flushes the buffer and takes the
sentence branch; otherwise paragraphs accumulate greedily, flushing
`"\n\n".join(current_parts)` with overlap seeding before an overflowing
paragraph, and the trailing buffer is flushed at the end. -/
def splitLongGo (tok : String → Nat) (max_tokens overlap_tokens : Nat) :
    List String → List String → Nat → List String
  | [], cur, _ => if cur ≠ [] then [joinNN cur] else []
  | para :: rest, cur, curT =>
    let pt := tok para
    if pt > max_tokens then
      (if cur ≠ [] then [joinNN cur] else []) ++
        sentencePath tok max_tokens overlap_tokens para ++
        splitLongGo tok max_tokens overlap_tokens rest [] 0
    else if curT + pt > max_tokens ∧ cur ≠ [] then
      let ov := paraOverlap tok overlap_tokens cur
      joinNN cur :: splitLongGo tok max_tokens overlap_tokens rest (ov.1 ++ [para]) (ov.2 + pt)
    else splitLongGo tok max_tokens overlap_tokens rest (cur ++ [para]) (curT + pt)

/-- `_split_long_text`: split an oversized section by paragraphs (stripped,
blanks dropped), with overlap between consecutive chunks. -/
def splitLongText (tok : String → Nat) (text : String)
    (max_tokens overlap_tokens : Nat) : List String :=
  let paragraphs := ((pySplitParas text).map pyStrip).filter (fun p => p ≠ "")
  if paragraphs = [] then []
  else splitLongGo tok max_tokens overlap_tokens paragraphs [] 0

/-- `metadata` dict of a chunk: the originating section's start (truncated
to 80 chars) always; sub-chunk position data only on split sections. -/
structure ChunkMeta where
  original_section_start : String
  sub_chunk : Option Nat := none
  total_sub_chunks : Option Nat := none
  deriving DecidableEq, Repr

/-- `ChunkData`: one chunk produced by the chunking service. -/
structure ChunkData where
  content : String
  section_type : Option String := none
  token_count : Nat := 0
  chunk_index : Nat := 0
  metadata : ChunkMeta
  deriving DecidableEq, Repr

/-- The sub-chunk emission loop of `create_chunks` (`for i, sub in
enumerate(sub_chunks)`): every sub-chunk after the first gets the
continuation heading, and `token_count` is recomputed on the final
content. -/
def subChunksGo (tok : String → Nat) (sec_type : String) (headingPrefixStr : String)
    (firstLine80 : String) (total : Nat) :
    List String → Nat → Nat → List ChunkData
  | [], _, _ => []
  | sub :: rest, i, idx =>
    let content := if i = 0 then sub else headingPrefixStr ++ sub
    { content := content
      section_type := some sec_type
      token_count := tok content
      chunk_index := idx
      metadata :=
        { original_section_start := firstLine80
          sub_chunk := some i
          total_sub_chunks := some total } } ::
      subChunksGo tok sec_type headingPrefixStr firstLine80 total rest (i + 1) (idx + 1)

/-- Chunks contributed by one section, starting at chunk index `idx`:
a fitting section is one chunk; an oversized one is split, its sub-chunks
prefixed with `"[Continuação de: <first line>]"` when the heading is under
120 characters. -/
def chunksForSection (tok : String → Nat) (max_tokens overlap_tokens : Nat)
    (idx : Nat) (sec : String) : List ChunkData :=
  let sec_type := classifySection sec
  let token_count := tok sec
  if token_count ≤ max_tokens then
    [{ content := sec
       section_type := some sec_type
       token_count := token_count
       chunk_index := idx
       metadata := { original_section_start := strTake sec 80 } }]
  else
    let sub_chunks := splitLongText tok sec max_tokens overlap_tokens
    let first_line := firstLineOf sec
    let headingPrefixStr :=
      if first_line.data.length < 120 then
        "[Continuação de: " ++ strTake first_line 100 ++ "]\n\n"
      else ""
    subChunksGo tok sec_type headingPrefixStr (strTake first_line 80)
      sub_chunks.length sub_chunks 0 idx

/-- The section loop of `create_chunks`, threading the running
`chunk_index`. -/
def chunksGo (tok : String → Nat) (max_tokens overlap_tokens : Nat) :
    List String → Nat → List ChunkData
  | [], _ => []
  | sec :: rest, idx =>
    let cs := chunksForSection tok max_tokens overlap_tokens idx sec
    cs ++ chunksGo tok max_tokens overlap_tokens rest (idx + cs.length)

/-- `create_chunks`: empty or whitespace-only text yields no chunks;
otherwise split into sections and chunk each one. -/
def createChunks (tok : String → Nat) (extracted_text : String)
    (max_tokens : Nat := 2000) (overlap_tokens : Nat := 200) : List ChunkData :=
  if pyStrip extracted_text = "" then []
  else chunksGo tok max_tokens overlap_tokens (splitIntoSections extracted_text) 0

/-!
## RAG search tool (`rag_tool.py`)

The tool builds a WHERE predicate from the caller context and the optional
scope filters, then runs a hybrid SQL query: a vector CTE (cosine distance
order, optional threshold, competition `RANK()`), a keyword CTE (full-text
match, `ts_rank_cd` descending `RANK()`), a full outer join on chunk id,
Reciprocal Rank Fusion scoring, `ORDER BY rrf_score DESC LIMIT n`.

Cosine distance and full-text relevance come from the database's operators
over the stored embeddings; they enter the model as parameters
`dist tsr : Int → ℚ` (keyed by chunk id) and `kwMatch : Int → Bool`
(`search_vector @@ websearch_to_tsquery`). Floating-point SQL arithmetic is
modelled over `ℚ`. `ORDER BY`/`LIMIT` leave the relative order of equal-key
rows unspecified, so query results are characterised by the relation
`limitSelect` rather than computed by a fixed sort.
-/

/-- Digits of Python `int()` after the first one: underscores allowed only
singly and between digits. -/
def pyDigitsUGo : List Char → Nat → Option Nat
  | [], acc => some acc
  | '_' :: d :: rest, acc =>
    if pyIsDigit d then pyDigitsUGo rest (acc * 10 + (d.toNat - 48)) else none
  | ['_'], _ => none
  | c :: rest, acc =>
    if pyIsDigit c then pyDigitsUGo rest (acc * 10 + (c.toNat - 48)) else none

/-- Nonempty digit sequence of Python `int()`. -/
def pyDigitsStart : List Char → Option Nat
  | [] => none
  | c :: rest => if pyIsDigit c then pyDigitsUGo rest (c.toNat - 48) else none

/-- Python `int(x)` on a string: surrounding whitespace stripped, optional
sign, decimal digits; anything else raises `ValueError` (`none`). -/
def pyIntOfStr (x : String) : Option Int :=
  match pyStripChars x.data with
  | '+' :: rest => (pyDigitsStart rest).map Int.ofNat
  | '-' :: rest => (pyDigitsStart rest).map (fun n => -(Int.ofNat n))
  | rest => (pyDigitsStart rest).map Int.ofNat

/-- The id-filter parse of `rag_search`: strip `[` and `]`, split on commas,
keep tokens with non-blank strip, convert each with `int(x.strip())`. The
list comprehension raises `ValueError` on the first non-numeric token, and
the handler then ignores the whole filter — so one bad token yields `none`
(no id filter at all), not a partial list. -/
def pyParseIds (document_ids : String) : Option (List Int) :=
  let clean := document_ids.data.filter (fun c => ¬ (c = '[' ∨ c = ']'))
  let tokens := clean.splitOn ','
  (tokens.filter (fun x => pyStripChars x ≠ [])).mapM
    (fun x => pyIntOfStr (String.mk (pyStripChars x)))

/-- Modelled from the spec: "Invalid entries inside an id-based scope
filter (non-numeric tokens) are dropped from the filter with a warning" —
i.e. each token is parsed independently and only the bad ones are dropped.
Used solely to compare the spec's claimed parse with the code's. -/
def specParseIds (document_ids : String) : Option (List Int) :=
  let clean := document_ids.data.filter (fun c => ¬ (c = '[' ∨ c = ']'))
  let tokens := clean.splitOn ','
  some ((tokens.filter (fun x => pyStripChars x ≠ [])).filterMap
    (fun x => pyIntOfStr (String.mk (pyStripChars x))))

/-- The caller context and parsed scope filters that determine the SQL
WHERE clauses of `rag_search`. -/
structure SearchParams where
  isAdmin : Bool
  userId : Int
  docIds : Option (List Int)
  filenameFilter : Option String
  deriving DecidableEq, Repr

/-- Lines 70–95 of `rag_tool.py`: the base WHERE clauses. The id clause is
added only when `document_ids` is non-blank, parses, and yields a nonempty
list; the filename clause when `filename` is non-blank. -/
def buildParams (is_admin : Bool) (user_id : Int)
    (document_ids filename : String) : SearchParams :=
  { isAdmin := is_admin
    userId := user_id
    docIds :=
      if pyStrip document_ids ≠ "" then
        match pyParseIds document_ids with
        | some ids => if ids ≠ [] then some ids else none
        | none => none
      else none
    filenameFilter := if pyStrip filename ≠ "" then some (pyStrip filename) else none }

/-- A row of the `documents` table (the columns the query touches). -/
structure DocRow where
  id : Int
  user_id : Int
  status : String
  filename : String
  deriving DecidableEq, Repr

/-- A row of the `document_chunks` table (the columns the query touches). -/
structure ChunkRow where
  id : Int
  document_id : Int
  content : String
  section_type : Option String
  chunk_index : Int
  token_count : Int
  deriving DecidableEq, Repr

/-- `FROM document_chunks dc JOIN documents d ON dc.document_id = d.id`. -/
structure Row where
  chunk : ChunkRow
  doc : DocRow
  deriving DecidableEq, Repr

/-- The join of the two tables. -/
def joinRows (chunks : List ChunkRow) (docs : List DocRow) : List Row :=
  chunks.flatMap (fun c =>
    (docs.filter (fun d => c.document_id == d.id)).map (fun d => ⟨c, d⟩))

/-- `d.filename ILIKE :filename_filter` with pattern `%f%`: case-insensitive
substring containment. -/
def ilikeContains (fname f : String) : Bool :=
  ((fname.data.map lowerChar).tails).any
    (fun t => (f.data.map lowerChar).isPrefixOf t)

/-- The WHERE predicate `where_sql` applied in both CTEs:
`d.status = 'processed'`, plus `d.user_id = :user_id` for non-admin
callers, plus the optional id and filename scope clauses. -/
def matchesWhere (p : SearchParams) (r : Row) : Bool :=
  r.doc.status == "processed" &&
  (p.isAdmin || r.doc.user_id == p.userId) &&
  (match p.docIds with
    | some ids => ids.contains r.chunk.document_id
    | none => true) &&
  (match p.filenameFilter with
    | some f => ilikeContains r.doc.filename f
    | none => true)

/-- `_MAX_DISTANCE = 0.65` (as the rational `13/20`, written with `mkRat`
so that comparisons against it reduce computationally). -/
def MAX_DISTANCE : ℚ := mkRat 13 20

/-- Rows of the `vector_search` CTE before ranking and LIMIT: the WHERE
filter plus, when enabled, the cosine-distance threshold. -/
def vectorCands (chunks : List ChunkRow) (docs : List DocRow) (p : SearchParams)
    (dist : Int → ℚ) (useThreshold : Bool) : List Row :=
  (joinRows chunks docs).filter (fun r =>
    matchesWhere p r &&
      (!useThreshold || decide (dist r.chunk.id < MAX_DISTANCE)))

/-- `RANK() OVER (ORDER BY dc.embedding <=> :embedding)`: competition rank
within the CTE's filtered row set (1 + number of strictly closer rows). -/
def semRankIn (l : List Row) (dist : Int → ℚ) (r : Row) : Nat :=
  1 + (l.filter (fun s => decide (dist s.chunk.id < dist r.chunk.id))).length

/-- Rows of the `keyword_search` CTE before ranking and LIMIT: the WHERE
filter plus `dc.search_vector @@ websearch_to_tsquery(...)`. -/
def keywordCands (chunks : List ChunkRow) (docs : List DocRow) (p : SearchParams)
    (kwMatch : Int → Bool) : List Row :=
  (joinRows chunks docs).filter (fun r => matchesWhere p r && kwMatch r.chunk.id)

/-- `RANK() OVER (ORDER BY ts_rank_cd(...) DESC)`: competition rank by
descending full-text relevance. -/
def kwRankIn (l : List Row) (tsr : Int → ℚ) (r : Row) : Nat :=
  1 + (l.filter (fun s => decide (tsr r.chunk.id < tsr s.chunk.id))).length

/-- A row of the final SELECT before projection: the underlying joined row
with the per-channel ranks (absent when the chunk missed that channel) and
the displayed distance (`COALESCE(v.distance, 1.0)`). -/
structure JRow where
  row : Row
  semRank : Option Nat
  kwRank : Option Nat
  distance : ℚ
  deriving DecidableEq, Repr

/-- `FULL OUTER JOIN keyword_search k ON v.chunk_id = k.chunk_id` of the
two (already LIMITed) CTE selections; for keyword-only rows the SELECT's
`COALESCE` subqueries recover the chunk columns and display distance 1.0. -/
def fullJoinJ (vsel ksel : List Row) (dist : Int → ℚ) (sr kr : Row → Nat) :
    List JRow :=
  vsel.map (fun v =>
    { row := v
      semRank := some (sr v)
      kwRank := if ksel.any (fun k => k.chunk.id == v.chunk.id) then some (kr v) else none
      distance := dist v.chunk.id }) ++
  (ksel.filter (fun k => ! vsel.any (fun v => v.chunk.id == k.chunk.id))).map
    (fun k => { row := k, semRank := none, kwRank := some (kr k), distance := 1 })

/-- `COALESCE(1.0/(60 + v.semantic_rank), 0.0) +
COALESCE(1.0/(60 + k.keyword_rank), 0.0)`: Reciprocal Rank Fusion with
`k = 60`; a NULL rank makes its whole term NULL, coalesced to 0. -/
def rrfScore (j : JRow) : ℚ :=
  (match j.semRank with | some r => 1 / (60 + (r : ℚ)) | none => 0) +
  (match j.kwRank with | some r => 1 / (60 + (r : ℚ)) | none => 0)

/-- `ORDER BY <ord> LIMIT n` as a relation: `sel` is some
`min n (length all)` rows of `all`, sorted by `ord`, such that every kept
row precedes every dropped row in the order. Ties may be emitted in any
order — SQL guarantees nothing more. -/
def limitSelect {α : Type} (ord : α → α → Prop) (n : Nat) (all sel : List α) : Prop :=
  ∃ rest, (sel ++ rest).Perm all ∧ sel.Sorted ord ∧
    sel.length = min n all.length ∧ ∀ x ∈ sel, ∀ y ∈ rest, ord x y

/-- Ascending cosine distance (`ORDER BY distance` in the vector CTE). -/
def distOrd (dist : Int → ℚ) (a b : Row) : Prop :=
  dist a.chunk.id ≤ dist b.chunk.id

/-- Ascending keyword rank (`ORDER BY keyword_rank` in the keyword CTE). -/
def kwOrd (kc : List Row) (tsr : Int → ℚ) (a b : Row) : Prop :=
  kwRankIn kc tsr a ≤ kwRankIn kc tsr b

/-- Descending fused score (`ORDER BY rrf_score DESC` — the final query's
only sort key). -/
def rrfOrd (a b : JRow) : Prop :=
  rrfScore b ≤ rrfScore a

/-- The `execute_query` helper of `rag_search`: `out` is a possible result
of the hybrid SQL query with the given WHERE parameters, threshold flag and
limit (both CTEs are capped at `limit * 2`, the fused result at `limit`). -/
def isExecuteQueryResult (chunks : List ChunkRow) (docs : List DocRow)
    (p : SearchParams) (dist tsr : Int → ℚ) (kwMatch : Int → Bool)
    (useThreshold : Bool) (limit : Nat) (out : List JRow) : Prop :=
  ∃ vsel ksel,
    limitSelect (distOrd dist) (limit * 2)
      (vectorCands chunks docs p dist useThreshold) vsel ∧
    limitSelect (kwOrd (keywordCands chunks docs p kwMatch) tsr) (limit * 2)
      (keywordCands chunks docs p kwMatch) ksel ∧
    limitSelect rrfOrd limit
      (fullJoinJ vsel ksel dist
        (semRankIn (vectorCands chunks docs p dist useThreshold) dist)
        (kwRankIn (keywordCands chunks docs p kwMatch) tsr)) out

/-- The four observably different returns of the `rag_search` tool: the
`except`-branch error message, the two zero-result messages (with the
id-hallucination guidance exactly when `document_ids` was passed), and the
formatted chunk list. -/
inductive RagOutcome where
  | errorMsg (e : String)
  | noneFoundWithIdHint (document_ids : String)
  | noneFound
  | found (rows : List JRow)
  deriving DecidableEq, Repr

/-- Lines 178–223 of `rag_tool.py`: turn the final row list into the
returned outcome. -/
def finishRows (rows : List JRow) (document_ids : String) : RagOutcome :=
  if rows = [] then
    if document_ids ≠ "" then RagOutcome.noneFoundWithIdHint document_ids
    else RagOutcome.noneFound
  else RagOutcome.found rows

/-- `is_filtered`: a scope filter string (id list or filename) was supplied
non-blank. -/
def isFilteredStr (document_ids filename : String) : Bool :=
  pyStrip document_ids ≠ "" || pyStrip filename ≠ ""

/-- The control flow of `rag_search` (lines 60–228): generate the query
embedding, run the strict pass (`use_threshold=True`, limit 10), run the
relaxed pass (`use_threshold=False`, limit 5) only when the strict pass
returned no rows and a scope filter was supplied, and format the result.
`emb` and `runQuery` are the two fallible collaborators; any exception is
caught by the tool's `except` and returned as the error outcome. The `Bool`
component records whether the fallback pass executed. -/
def ragSearchModel (emb : Except String (List ℚ))
    (runQuery : Bool → Nat → Except String (List JRow))
    (document_ids filename : String) : RagOutcome × Bool :=
  match emb with
  | .error e => (RagOutcome.errorMsg e, false)
  | .ok _ =>
    match runQuery true 10 with
    | .error e => (RagOutcome.errorMsg e, false)
    | .ok rows =>
      if rows = [] ∧ isFilteredStr document_ids filename = true then
        match runQuery false 5 with
        | .error e => (RagOutcome.errorMsg e, true)
        | .ok rows2 => (finishRows rows2 document_ids, true)
      else (finishRows rows document_ids, false)

/-- Modelled from the spec: "Sort descending by fused score; ties broken by
lower semantic_rank, then lower lexical_rank" — the claimed lexicographic
order on result rows, with an absent rank displayed as the query's 1000
sentinel. Used solely to compare the claimed ordering with the code's. -/
def specFusionOrder (a b : JRow) : Prop :=
  rrfScore b < rrfScore a ∨
    (rrfScore a = rrfScore b ∧
      (a.semRank.getD 1000 < b.semRank.getD 1000 ∨
        (a.semRank.getD 1000 = b.semRank.getD 1000 ∧
          a.kwRank.getD 1000 ≤ b.kwRank.getD 1000)))

instance : DecidableRel specFusionOrder := fun a b => by
  unfold specFusionOrder; infer_instance

instance : DecidableRel rrfOrd := fun a b => by
  unfold rrfOrd; infer_instance

instance (dist : Int → ℚ) : DecidableRel (distOrd dist) := fun a b => by
  unfold distOrd; infer_instance

instance (kc : List Row) (tsr : Int → ℚ) : DecidableRel (kwOrd kc tsr) := fun a b => by
  unfold kwOrd; infer_instance

/-!
## Lemmas: strings, stripping, joining
-/

theorem mk_eq_empty_iff (l : List Char) : String.mk l = "" ↔ l = [] := by
  constructor
  · intro h; exact congrArg String.data h
  · intro h; subst h; rfl

theorem eq_empty_iff_data (s : String) : s = "" ↔ s.data = [] := by
  constructor
  · intro h; rw [h]
  · intro h
    cases s with
    | mk d => simp only at h; subst h; rfl

theorem append_ne_empty_right (a b : String) (hb : b ≠ "") : a ++ b ≠ "" := by
  intro h
  rw [eq_empty_iff_data, String.data_append, List.append_eq_nil] at h
  exact hb ((eq_empty_iff_data b).mpr h.2)

theorem head?_dropWhile_not (p : Char → Bool) :
    ∀ (l : List Char) (a : Char), (l.dropWhile p).head? = some a → p a = false := by
  intro l
  induction l with
  | nil => intro a h; simp [List.dropWhile] at h
  | cons c rest ih =>
    intro a h
    by_cases hc : p c
    · rw [List.dropWhile_cons_of_pos hc] at h; exact ih a h
    · rw [List.dropWhile_cons_of_neg hc] at h
      simp only [List.head?_cons, Option.some.injEq] at h
      subst h
      simpa using hc

theorem dropWhile_eq_self_of_head (p : Char → Bool) (l : List Char)
    (h : ∀ a, l.head? = some a → p a = false) : l.dropWhile p = l := by
  cases l with
  | nil => rfl
  | cons c rest => exact List.dropWhile_cons_of_neg (by simp [h c rfl])

theorem pyStripChars_getLast?_not_ws (l : List Char) (a : Char)
    (h : (pyStripChars l).getLast? = some a) : pyIsSpace a = false := by
  unfold pyStripChars at h
  rw [List.getLast?_reverse] at h
  exact head?_dropWhile_not pyIsSpace _ a h

theorem pyStripChars_head?_not_ws (l : List Char) (a : Char)
    (h : (pyStripChars l).head? = some a) : pyIsSpace a = false := by
  unfold pyStripChars at h
  rw [List.head?_reverse] at h
  set m := (l.dropWhile pyIsSpace).reverse with hm
  have hne : m.dropWhile pyIsSpace ≠ [] := by
    intro hnil; rw [hnil] at h; simp at h
  obtain ⟨t, ht⟩ := List.dropWhile_suffix (l := m) (p := pyIsSpace)
  have h2 : m.getLast? = some a := by
    rw [← ht, List.getLast?_append_of_ne_nil t hne]; exact h
  rw [hm, List.getLast?_reverse] at h2
  exact head?_dropWhile_not pyIsSpace _ a h2

theorem pyStripChars_idem (l : List Char) :
    pyStripChars (pyStripChars l) = pyStripChars l := by
  conv_lhs => rw [pyStripChars]
  rw [dropWhile_eq_self_of_head pyIsSpace (pyStripChars l)
    (pyStripChars_head?_not_ws l)]
  rw [dropWhile_eq_self_of_head pyIsSpace (pyStripChars l).reverse
    (fun a ha => pyStripChars_getLast?_not_ws l a (by rwa [List.head?_reverse] at ha))]
  exact List.reverse_reverse _

theorem pyStrip_idem (s : String) : pyStrip (pyStrip s) = pyStrip s := by
  unfold pyStrip
  exact congrArg String.mk (pyStripChars_idem s.data)

theorem pyStripChars_eq_nil_iff (l : List Char) :
    pyStripChars l = [] ↔ ∀ c ∈ l, pyIsSpace c = true := by
  unfold pyStripChars
  rw [List.reverse_eq_nil_iff]
  constructor
  · intro h
    have h1 : ∀ c ∈ (l.dropWhile pyIsSpace).reverse, pyIsSpace c = true :=
      List.dropWhile_eq_nil_iff.mp h
    have h2 : l.dropWhile pyIsSpace = [] := by
      cases hd : l.dropWhile pyIsSpace with
      | nil => rfl
      | cons c rest =>
        have hc : pyIsSpace c = false :=
          head?_dropWhile_not pyIsSpace l c (by rw [hd]; rfl)
        have : pyIsSpace c = true := h1 c (by simp [hd])
        rw [hc] at this; cases this
    exact List.dropWhile_eq_nil_iff.mp h2
  · intro h
    have h2 : l.dropWhile pyIsSpace = [] := List.dropWhile_eq_nil_iff.mpr h
    rw [h2]; rfl

theorem pyStrip_eq_empty_iff (s : String) :
    pyStrip s = "" ↔ ∀ c ∈ s.data, pyIsSpace c = true := by
  unfold pyStrip
  rw [mk_eq_empty_iff]
  exact pyStripChars_eq_nil_iff s.data

theorem joinWith_ne_empty (sep : String) :
    ∀ l : List String, l ≠ [] → (∀ x ∈ l, x ≠ "") → joinWith sep l ≠ "" := by
  intro l
  match l with
  | [] => intro h _; exact absurd rfl h
  | [x] => intro _ h2; simpa [joinWith] using h2 x (by simp)
  | x :: y :: rest =>
    intro _ h2 hcontra
    have hx : x ≠ "" := h2 x (by simp)
    rw [joinWith] at hcontra
    have hlen := congrArg String.length hcontra
    rw [String.length_append, String.length_append] at hlen
    have hx0 : x.length ≠ 0 := by
      intro h0
      apply hx
      rw [eq_empty_iff_data, ← List.length_eq_zero]
      exact h0
    have hz : ("" : String).length = 0 := rfl
    omega

/-!
## Lemmas: the sentence and paragraph splitters
-/

theorem getLast?_cons_of_ne_nil (c : Char) (rest : List Char) (h : rest ≠ []) :
    (c :: rest).getLast? = rest.getLast? := by
  cases rest with
  | nil => exact absurd rfl h
  | cons d t => exact List.getLast?_cons_cons

theorem getLast?_some_of_ne_nil (l : List Char) (h : l ≠ []) :
    ∃ a, l.getLast? = some a := by
  cases hl : l.getLast? with
  | some a => exact ⟨a, rfl⟩
  | none =>
    rw [← List.head?_reverse] at hl
    cases hr : l.reverse with
    | nil => exact absurd (List.reverse_eq_nil_iff.mp hr) h
    | cons c t => rw [hr] at hl; simp at hl

theorem splitSentGo_parts_ne_nil :
    ∀ (fuel : Nat) (l acc : List Char),
      (l = [] → acc ≠ []) →
      (∀ a, l.getLast? = some a → pyIsSpace a = false) →
      ∀ part ∈ splitSentGo fuel l acc, part ≠ [] := by
  intro fuel
  induction fuel with
  | zero =>
    intro l acc h1 _ part hp
    cases l with
    | nil =>
      simp only [splitSentGo, List.mem_singleton] at hp
      subst hp
      simpa [List.reverse_eq_nil_iff] using h1 rfl
    | cons c rest =>
      simp only [splitSentGo, List.mem_singleton] at hp
      subst hp
      simp
  | succ fuel ih =>
    intro l acc h1 h2 part hp
    cases l with
    | nil =>
      simp only [splitSentGo, List.mem_singleton] at hp
      subst hp
      simpa [List.reverse_eq_nil_iff] using h1 rfl
    | cons c rest =>
      rw [splitSentGo] at hp
      by_cases hcut : (c = '.' ∨ c = '!' ∨ c = '?') ∧ (match rest.head? with
          | some d => pyIsSpace d
          | none => false) = true
      · rw [if_pos hcut] at hp
        rcases List.mem_cons.mp hp with hfst | hrest
        · subst hfst; simp
        · -- the cut implies `rest` starts with whitespace, so it is nonempty,
          -- and the no-trailing-whitespace hypothesis keeps its tail nonempty
          have hrne : rest ≠ [] := by
            intro hnil
            rw [hnil] at hcut
            simp at hcut
          have hlast : ∀ a, rest.getLast? = some a → pyIsSpace a = false := by
            intro a ha
            exact h2 a (by rwa [getLast?_cons_of_ne_nil c rest hrne])
          have hdropne : rest.dropWhile pyIsSpace ≠ [] := by
            intro hnil
            obtain ⟨a, ha⟩ := getLast?_some_of_ne_nil rest hrne
            have haw : pyIsSpace a = true :=
              List.dropWhile_eq_nil_iff.mp hnil a (List.mem_of_mem_getLast? ha)
            rw [hlast a ha] at haw; cases haw
          have hlast2 : ∀ a, (rest.dropWhile pyIsSpace).getLast? = some a →
              pyIsSpace a = false := by
            intro a ha
            obtain ⟨t, ht⟩ := List.dropWhile_suffix (l := rest) (p := pyIsSpace)
            apply hlast a
            rw [← ht, List.getLast?_append_of_ne_nil t hdropne]
            exact ha
          exact ih (rest.dropWhile pyIsSpace) [] (fun hnil => absurd hnil hdropne)
            hlast2 part hrest
      · rw [if_neg hcut] at hp
        have hlast : ∀ a, rest.getLast? = some a → pyIsSpace a = false := by
          intro a ha
          have hrne : rest ≠ [] := by
            intro hnil; rw [hnil] at ha; simp at ha
          exact h2 a (by rwa [getLast?_cons_of_ne_nil c rest hrne])
        exact ih rest (c :: acc) (fun _ => by simp) hlast part hp

theorem pySplitSents_parts_ne_empty (p : String) (hp : p ≠ "")
    (hlast : ∀ a, p.data.getLast? = some a → pyIsSpace a = false) :
    ∀ sent ∈ pySplitSents p, sent ≠ "" := by
  intro sent hs
  unfold pySplitSents at hs
  obtain ⟨part, hpart, rfl⟩ := List.mem_map.mp hs
  have hne := splitSentGo_parts_ne_nil p.data.length p.data []
    (fun hnil => absurd ((eq_empty_iff_data p).mpr hnil) hp) hlast part hpart
  rw [Ne, mk_eq_empty_iff]
  exact hne

theorem splitParasGo_chars_subset :
    ∀ (fuel : Nat) (l acc part : List Char), part ∈ splitParasGo fuel l acc →
      ∀ c ∈ part, c ∈ acc ∨ c ∈ l := by
  intro fuel
  induction fuel with
  | zero =>
    intro l acc part hp c hc
    cases l with
    | nil =>
      simp only [splitParasGo, List.mem_singleton] at hp
      subst hp
      exact Or.inl (List.mem_reverse.mp hc)
    | cons d rest =>
      simp only [splitParasGo, List.mem_singleton] at hp
      subst hp
      rcases List.mem_append.mp hc with h | h
      · exact Or.inl (List.mem_reverse.mp h)
      · exact Or.inr h
  | succ fuel ih =>
    intro l acc part hp c hc
    cases l with
    | nil =>
      simp only [splitParasGo, List.mem_singleton] at hp
      subst hp
      exact Or.inl (List.mem_reverse.mp hc)
    | cons d rest =>
      rw [splitParasGo] at hp
      by_cases hd : d = '\n'
      · rw [if_pos hd] at hp
        cases hm : lastNLofRun rest with
        | some i =>
          rw [hm] at hp
          rcases List.mem_cons.mp hp with hfst | hrest
          · subst hfst; exact Or.inl (List.mem_reverse.mp hc)
          · rcases ih (rest.drop (i + 1)) [] part hrest c hc with h | h
            · simp at h
            · exact Or.inr (List.mem_cons_of_mem d (List.drop_subset (i + 1) rest h))
        | none =>
          rw [hm] at hp
          rcases ih rest (d :: acc) part hp c hc with h | h
          · rcases List.mem_cons.mp h with h' | h'
            · exact Or.inr (by simp [h'])
            · exact Or.inl h'
          · exact Or.inr (List.mem_cons_of_mem d h)
      · rw [if_neg hd] at hp
        rcases ih rest (d :: acc) part hp c hc with h | h
        · rcases List.mem_cons.mp h with h' | h'
          · exact Or.inr (by simp [h'])
          · exact Or.inl h'
        · exact Or.inr (List.mem_cons_of_mem d h)

/-- Every paragraph kept by `_split_long_text` is non-blank, is its own
strip, and splits into non-empty sentences. -/
theorem paragraphs_props (text : String) :
    ∀ q ∈ ((pySplitParas text).map pyStrip).filter (fun p => p ≠ ""),
      q ≠ "" ∧ ∀ sent ∈ pySplitSents q, sent ≠ "" := by
  intro q hq
  have hqne : q ≠ "" := by simpa using List.of_mem_filter hq
  have hqmem := List.mem_of_mem_filter hq
  obtain ⟨x, _, rfl⟩ := List.mem_map.mp hqmem
  refine ⟨hqne, ?_⟩
  apply pySplitSents_parts_ne_empty _ hqne
  intro a ha
  exact pyStripChars_getLast?_not_ws x.data a ha

/-!
## Lemmas: the token-bounded splitter emits non-empty chunks
-/

theorem sentOverlapGo_subset (tok : String → Nat) (o : Nat) :
    ∀ (l : List String) (t : Nat) (acc : List String),
      ∀ x ∈ (sentOverlapGo tok o l t acc).1, x ∈ acc ∨ x ∈ l := by
  intro l
  induction l with
  | nil => intro t acc x hx; exact Or.inl hx
  | cons s rest ih =>
    intro t acc x hx
    rw [sentOverlapGo] at hx
    by_cases hc : t + tok s > o
    · rw [if_pos hc] at hx
      exact Or.inl hx
    · rw [if_neg hc] at hx
      rcases ih (t + tok s) (s :: acc) x hx with h | h
      · rcases List.mem_cons.mp h with h' | h'
        · exact Or.inr (by simp [h'])
        · exact Or.inl h'
      · exact Or.inr (List.mem_cons_of_mem s h)

theorem sentOverlap_subset (tok : String → Nat) (o : Nat) (parts : List String) :
    ∀ x ∈ (sentOverlap tok o parts).1, x ∈ parts := by
  intro x hx
  rcases sentOverlapGo_subset tok o parts.reverse 0 [] x hx with h | h
  · simp at h
  · exact List.mem_reverse.mp h

theorem paraOverlapGo_subset (tok : String → Nat) (o : Nat) :
    ∀ (l : List String) (t : Nat) (acc : List String),
      ∀ x ∈ (paraOverlapGo tok o l t acc).1, x ∈ acc ∨ x ∈ l := by
  intro l
  induction l with
  | nil => intro t acc x hx; exact Or.inl hx
  | cons s rest ih =>
    intro t acc x hx
    rw [paraOverlapGo] at hx
    by_cases hc : t + tok s > o
    · rw [if_pos hc] at hx
      exact Or.inl hx
    · rw [if_neg hc] at hx
      rcases ih (t + tok s) (s :: acc) x hx with h | h
      · rcases List.mem_cons.mp h with h' | h'
        · exact Or.inr (by simp [h'])
        · exact Or.inl h'
      · exact Or.inr (List.mem_cons_of_mem s h)

theorem paraOverlap_subset (tok : String → Nat) (o : Nat) (parts : List String) :
    ∀ x ∈ (paraOverlap tok o parts).1, x ∈ parts := by
  intro x hx
  rcases paraOverlapGo_subset tok o parts.reverse 0 [] x hx with h | h
  · simp at h
  · exact List.mem_reverse.mp h

theorem sentLoop_ne_empty (tok : String → Nat) (m o : Nat) :
    ∀ (sents sp : List String) (spT : Nat),
      (∀ x ∈ sents, x ≠ "") → (∀ x ∈ sp, x ≠ "") →
      ∀ s ∈ sentLoop tok m o sents sp spT, s ≠ "" := by
  intro sents
  induction sents with
  | nil =>
    intro sp spT _ hsp s hs
    rw [sentLoop] at hs
    by_cases hne : sp ≠ []
    · simp only [if_pos hne, List.mem_singleton] at hs
      subst hs
      exact joinWith_ne_empty " " sp hne hsp
    · simp only [if_neg hne] at hs
      simp at hs
  | cons sent rest ih =>
    intro sp spT hsents hsp s hs
    rw [sentLoop] at hs
    have hsent : sent ≠ "" := hsents sent (by simp)
    have hrest : ∀ x ∈ rest, x ≠ "" := fun x hx => hsents x (List.mem_cons_of_mem _ hx)
    by_cases hc : spT + tok sent > m ∧ sp ≠ []
    · rw [if_pos hc] at hs
      rcases List.mem_cons.mp hs with hfst | htl
      · subst hfst
        exact joinWith_ne_empty " " sp hc.2 hsp
      · apply ih ((sentOverlap tok o sp).1 ++ [sent]) _ hrest _ s htl
        intro x hx
        rcases List.mem_append.mp hx with h | h
        · exact hsp x (sentOverlap_subset tok o sp x h)
        · rw [List.mem_singleton.mp h]; exact hsent
    · rw [if_neg hc] at hs
      apply ih (sp ++ [sent]) _ hrest _ s hs
      intro x hx
      rcases List.mem_append.mp hx with h | h
      · exact hsp x h
      · rw [List.mem_singleton.mp h]; exact hsent

theorem splitLongGo_ne_empty (tok : String → Nat) (m o : Nat) :
    ∀ (paras cur : List String) (curT : Nat),
      (∀ p ∈ paras, p ≠ "" ∧ ∀ sent ∈ pySplitSents p, sent ≠ "") →
      (∀ x ∈ cur, x ≠ "") →
      ∀ s ∈ splitLongGo tok m o paras cur curT, s ≠ "" := by
  intro paras
  induction paras with
  | nil =>
    intro cur curT _ hcur s hs
    rw [splitLongGo] at hs
    by_cases hne : cur ≠ []
    · simp only [if_pos hne, List.mem_singleton] at hs
      subst hs
      exact joinWith_ne_empty "\n\n" cur hne hcur
    · simp only [if_neg hne] at hs
      simp at hs
  | cons para rest ih =>
    intro cur curT hparas hcur s hs
    rw [splitLongGo] at hs
    obtain ⟨hpne, hsents⟩ := hparas para (by simp)
    have hrest : ∀ p ∈ rest, p ≠ "" ∧ ∀ sent ∈ pySplitSents p, sent ≠ "" :=
      fun p hp => hparas p (List.mem_cons_of_mem _ hp)
    by_cases hbig : tok para > m
    · rw [if_pos hbig] at hs
      rcases List.mem_append.mp hs with h1 | h2
      · rcases List.mem_append.mp h1 with hflush | hsent
        · by_cases hne : cur ≠ []
          · simp only [if_pos hne, List.mem_singleton] at hflush
            subst hflush
            exact joinWith_ne_empty "\n\n" cur hne hcur
          · simp only [if_neg hne] at hflush
            simp at hflush
        · exact sentLoop_ne_empty tok m o (pySplitSents para) [] 0 hsents
            (by simp) s hsent
      · exact ih [] 0 hrest (by simp) s h2
    · rw [if_neg hbig] at hs
      by_cases hc : curT + tok para > m ∧ cur ≠ []
      · rw [if_pos hc] at hs
        rcases List.mem_cons.mp hs with hfst | htl
        · subst hfst
          exact joinWith_ne_empty "\n\n" cur hc.2 hcur
        · apply ih _ _ hrest _ s htl
          intro x hx
          rcases List.mem_append.mp hx with h | h
          · exact hcur x (paraOverlap_subset tok o cur x h)
          · rw [List.mem_singleton.mp h]; exact hpne
      · rw [if_neg hc] at hs
        apply ih _ _ hrest _ s hs
        intro x hx
        rcases List.mem_append.mp hx with h | h
        · exact hcur x h
        · rw [List.mem_singleton.mp h]; exact hpne

theorem splitLongText_ne_empty (tok : String → Nat) (text : String) (m o : Nat) :
    ∀ s ∈ splitLongText tok text m o, s ≠ "" := by
  intro s hs
  unfold splitLongText at hs
  by_cases hp : ((pySplitParas text).map pyStrip).filter (fun p => p ≠ "") = []
  · rw [if_pos hp] at hs; simp at hs
  · rw [if_neg hp] at hs
    exact splitLongGo_ne_empty tok m o _ [] 0 (paragraphs_props text) (by simp) s hs

/-!
## Lemmas: sections and chunk assembly
-/

theorem classifySection_mem_labels (sec : String) :
    classifySection sec ∈
      ["cláusula", "artigo", "capítulo", "seção", "parágrafo", "texto_geral"] := by
  unfold classifySection classifyFirstLine
  split_ifs <;> simp

theorem splitIntoSections_ne_empty (t : String) :
    ∀ sec ∈ splitIntoSections t, sec ≠ "" := by
  intro sec hsec
  unfold splitIntoSections at hsec
  cases hb : findSectionBoundaries t with
  | nil =>
    rw [hb] at hsec
    by_cases ht : pyStrip t ≠ ""
    · rw [if_pos ht] at hsec
      rw [List.mem_singleton.mp hsec]
      intro h0
      exact ht (by rw [h0]; rfl)
    · rw [if_neg ht] at hsec; simp at hsec
  | cons b0 bs =>
    rw [hb] at hsec
    rcases List.mem_append.mp hsec with hpre | hspan
    · by_cases hb0 : b0 > 0
      · rw [if_pos hb0] at hpre
        by_cases hp : pyStrip (strTake t b0) ≠ ""
        · rw [if_pos hp] at hpre
          rw [List.mem_singleton.mp hpre]
          exact hp
        · rw [if_neg hp] at hpre; simp at hpre
      · rw [if_neg hb0] at hpre; simp at hpre
    · simpa using List.of_mem_filter hspan

theorem splitIntoSections_strip_ne_empty (t : String) :
    ∀ sec ∈ splitIntoSections t, pyStrip sec ≠ "" := by
  intro sec hsec
  unfold splitIntoSections at hsec
  cases hb : findSectionBoundaries t with
  | nil =>
    rw [hb] at hsec
    by_cases ht : pyStrip t ≠ ""
    · rw [if_pos ht] at hsec
      rw [List.mem_singleton.mp hsec]
      exact ht
    · rw [if_neg ht] at hsec; simp at hsec
  | cons b0 bs =>
    rw [hb] at hsec
    rcases List.mem_append.mp hsec with hpre | hspan
    · by_cases hb0 : b0 > 0
      · rw [if_pos hb0] at hpre
        by_cases hp : pyStrip (strTake t b0) ≠ ""
        · rw [if_pos hp] at hpre
          rw [List.mem_singleton.mp hpre, pyStrip_idem]
          exact hp
        · rw [if_neg hp] at hpre; simp at hpre
      · rw [if_neg hb0] at hpre; simp at hpre
    · have hne : sec ≠ "" := by simpa using List.of_mem_filter hspan
      obtain ⟨se, _, hfe⟩ := List.mem_map.mp (List.mem_of_mem_filter hspan)
      rw [← hfe, pyStrip_idem]
      rw [← hfe] at hne
      exact hne

theorem subChunksGo_mem (tok : String → Nat) (st hp fl80 : String) (total : Nat) :
    ∀ (subs : List String) (i idx : Nat) (c : ChunkData),
      c ∈ subChunksGo tok st hp fl80 total subs i idx →
      ∃ j ∈ subs, (c.content = j ∨ c.content = hp ++ j) ∧
        c.token_count = tok c.content ∧ c.section_type = some st := by
  intro subs
  induction subs with
  | nil => intro i idx c hc; simp [subChunksGo] at hc
  | cons sub rest ih =>
    intro i idx c hc
    rw [subChunksGo] at hc
    rcases List.mem_cons.mp hc with hfst | htl
    · subst hfst
      by_cases hi : i = 0
      · exact ⟨sub, by simp, Or.inl (by simp [hi]), by simp [hi], rfl⟩
      · exact ⟨sub, by simp, Or.inr (by simp [hi]), by simp [hi], rfl⟩
    · obtain ⟨j, hj, hrest⟩ := ih (i + 1) (idx + 1) c htl
      exact ⟨j, List.mem_cons_of_mem _ hj, hrest⟩

theorem chunksForSection_props (tok : String → Nat) (m o idx : Nat) (sec : String)
    (hsec : sec ≠ "") :
    ∀ c ∈ chunksForSection tok m o idx sec,
      c.content ≠ "" ∧ c.token_count = tok c.content ∧
        ∃ lab, c.section_type = some lab ∧
          lab ∈ ["cláusula", "artigo", "capítulo", "seção", "parágrafo", "texto_geral"] := by
  intro c hc
  unfold chunksForSection at hc
  by_cases hfit : tok sec ≤ m
  · rw [if_pos hfit] at hc
    rw [List.mem_singleton.mp hc]
    exact ⟨hsec, rfl, ⟨classifySection sec, rfl, classifySection_mem_labels sec⟩⟩
  · rw [if_neg hfit] at hc
    obtain ⟨j, hj, hcontent, htok, hst⟩ := subChunksGo_mem tok _ _ _ _ _ 0 idx c hc
    have hjne : j ≠ "" := splitLongText_ne_empty tok sec m o j hj
    refine ⟨?_, htok, classifySection sec, hst, classifySection_mem_labels sec⟩
    rcases hcontent with h | h
    · rw [h]; exact hjne
    · rw [h]; exact append_ne_empty_right _ j hjne

theorem chunksGo_mem (tok : String → Nat) (m o : Nat) :
    ∀ (secs : List String) (k : Nat) (c : ChunkData),
      c ∈ chunksGo tok m o secs k →
      ∃ sec ∈ secs, ∃ idx, c ∈ chunksForSection tok m o idx sec := by
  intro secs
  induction secs with
  | nil => intro k c hc; simp [chunksGo] at hc
  | cons sec rest ih =>
    intro k c hc
    rw [chunksGo] at hc
    rcases List.mem_append.mp hc with h | h
    · exact ⟨sec, by simp, k, h⟩
    · obtain ⟨s, hs, idx, hmem⟩ := ih _ c h
      exact ⟨s, List.mem_cons_of_mem _ hs, idx, hmem⟩

theorem subChunksGo_indices (tok : String → Nat) (st hp fl80 : String) (total : Nat) :
    ∀ (subs : List String) (i idx : Nat),
      (subChunksGo tok st hp fl80 total subs i idx).map ChunkData.chunk_index
        = List.range' idx subs.length := by
  intro subs
  induction subs with
  | nil => intro i idx; simp [subChunksGo]
  | cons sub rest ih =>
    intro i idx
    rw [subChunksGo]
    simp only [List.map_cons, List.length_cons, List.range'_succ]
    rw [ih (i + 1) (idx + 1)]

theorem chunksForSection_indices (tok : String → Nat) (m o idx : Nat) (sec : String) :
    (chunksForSection tok m o idx sec).map ChunkData.chunk_index
      = List.range' idx (chunksForSection tok m o idx sec).length := by
  unfold chunksForSection
  by_cases hfit : tok sec ≤ m
  · rw [if_pos hfit]; simp [List.range'_succ]
  · rw [if_neg hfit]
    rw [subChunksGo_indices]
    have hlen := congrArg List.length
      (subChunksGo_indices tok (classifySection sec)
        (if (firstLineOf sec).data.length < 120 then
          "[Continuação de: " ++ strTake (firstLineOf sec) 100 ++ "]\n\n" else "")
        (strTake (firstLineOf sec) 80) (splitLongText tok sec m o).length
        (splitLongText tok sec m o) 0 idx)
    rw [List.length_map, List.length_range'] at hlen
    rw [hlen]

theorem chunksGo_indices (tok : String → Nat) (m o : Nat) :
    ∀ (secs : List String) (k : Nat),
      (chunksGo tok m o secs k).map ChunkData.chunk_index
        = List.range' k (chunksGo tok m o secs k).length := by
  intro secs
  induction secs with
  | nil => intro k; simp [chunksGo]
  | cons sec rest ih =>
    intro k
    rw [chunksGo]
    rw [List.map_append, List.length_append]
    rw [chunksForSection_indices, ih]
    have := List.range'_append k (chunksForSection tok m o k sec).length
      (chunksGo tok m o rest (k + (chunksForSection tok m o k sec).length)).length 1
    simp only [one_mul] at this
    rw [this]
    congr 1
    omega

/-!
## Claim theorems: the chunker (C7, C8, C9, C10)
-/

/-- C7: `create_chunks` never raises (it is a total function in this
embedding) and empty or whitespace-only input yields the empty chunk list;
every section the segmenter produces is non-blank, and a blank section fed
to the splitter contributes no chunks. -/
theorem empty_input_no_chunks (tok : String → Nat) (t sec : String) (m o : Nat) :
    (pyStrip t = "" → createChunks tok t m o = []) ∧
    (∀ s ∈ splitIntoSections t, pyStrip s ≠ "") ∧
    (pyStrip sec = "" → splitLongText tok sec m o = []) := by
  refine ⟨?_, splitIntoSections_strip_ne_empty t, ?_⟩
  · intro h
    unfold createChunks
    rw [if_pos h]
  · intro h
    unfold splitLongText
    have hall : ∀ c ∈ sec.data, pyIsSpace c = true := (pyStrip_eq_empty_iff sec).mp h
    have hpar : ((pySplitParas sec).map pyStrip).filter (fun p => p ≠ "") = [] := by
      rw [List.filter_eq_nil_iff]
      intro p hp
      obtain ⟨x, hx, rfl⟩ := List.mem_map.mp hp
      obtain ⟨part, hpart, rfl⟩ := List.mem_map.mp hx
      have hps : pyStrip (String.mk part) = "" := by
        rw [pyStrip, mk_eq_empty_iff, pyStripChars_eq_nil_iff]
        intro c hc
        rcases splitParasGo_chars_subset sec.data.length sec.data [] part hpart c hc
          with h' | h'
        · simp at h'
        · exact hall c h'
      simp [hps]
    rw [hpar, if_pos rfl]

/-- C8: chunking is deterministic — it is a pure function of the input text
and configuration (the Python module holds no mutable state, and regex and
tokenizer behaviour is fixed), so identical inputs give identical chunk
sequences, section boundaries and labels. -/
theorem chunking_deterministic (tok : String → Nat) (t1 t2 : String)
    (m1 m2 o1 o2 : Nat) (ht : t1 = t2) (hm : m1 = m2) (ho : o1 = o2) :
    createChunks tok t1 m1 o1 = createChunks tok t2 m2 o2 ∧
    splitIntoSections t1 = splitIntoSections t2 ∧
    findSectionBoundaries t1 = findSectionBoundaries t2 ∧
    (splitIntoSections t1).map classifySection
      = (splitIntoSections t2).map classifySection := by
  subst ht; subst hm; subst ho
  exact ⟨rfl, rfl, rfl, rfl⟩

theorem chunking_deterministic_witness :
    createChunks String.length "CLÁUSULA 1\nTexto A" 2000 200
        = createChunks String.length "CLÁUSULA 1\nTexto A" 2000 200 ∧
      splitIntoSections "CLÁUSULA 1\nTexto A" = splitIntoSections "CLÁUSULA 1\nTexto A" ∧
      findSectionBoundaries "CLÁUSULA 1\nTexto A" = findSectionBoundaries "CLÁUSULA 1\nTexto A" ∧
      (splitIntoSections "CLÁUSULA 1\nTexto A").map classifySection
        = (splitIntoSections "CLÁUSULA 1\nTexto A").map classifySection :=
  chunking_deterministic String.length _ _ 2000 2000 200 200 rfl rfl rfl

/-- C9: the chunk indices of `create_chunks` are exactly `0, 1, 2, …` in
list order — zero-based and strictly increasing per document. -/
theorem chunk_index_sequential (tok : String → Nat) (t : String) (m o : Nat) :
    (createChunks tok t m o).map ChunkData.chunk_index
      = List.range (createChunks tok t m o).length := by
  unfold createChunks
  by_cases h : pyStrip t = ""
  · rw [if_pos h]; rfl
  · rw [if_neg h]
    rw [List.range_eq_range']
    exact chunksGo_indices tok m o (splitIntoSections t) 0

/-- C10: every chunk has non-empty content, a `token_count` equal to the
token counter applied to its final content (continuation heading included),
and a non-null `section_type` from the fixed label set. -/
theorem chunk_field_invariants (tok : String → Nat) (t : String) (m o : Nat)
    (c : ChunkData) (hc : c ∈ createChunks tok t m o) :
    c.content ≠ "" ∧ c.token_count = tok c.content ∧
      ∃ lab, c.section_type = some lab ∧
        lab ∈ ["cláusula", "artigo", "capítulo", "seção", "parágrafo", "texto_geral"] := by
  unfold createChunks at hc
  by_cases h : pyStrip t = ""
  · rw [if_pos h] at hc; simp at hc
  · rw [if_neg h] at hc
    obtain ⟨sec, hsec, idx, hmem⟩ := chunksGo_mem tok m o (splitIntoSections t) 0 c hc
    exact chunksForSection_props tok m o idx sec
      (splitIntoSections_ne_empty t sec hsec) c hmem

theorem chunk_field_invariants_witness :
    (⟨"Texto simples.", some "texto_geral", 14, 0, ⟨"Texto simples.", none, none⟩⟩ : ChunkData)
        ∈ createChunks String.length "Texto simples." 2000 200 ∧
      ("Texto simples." : String) ≠ "" ∧
      (14 : Nat) = String.length "Texto simples." ∧
      some "texto_geral" = some "texto_geral" := by
  have hmem : (⟨"Texto simples.", some "texto_geral", 14, 0,
      ⟨"Texto simples.", none, none⟩⟩ : ChunkData)
      ∈ createChunks String.length "Texto simples." 2000 200 := by decide
  have h := chunk_field_invariants String.length "Texto simples." 2000 200 _ hmem
  exact ⟨hmem, h.1, h.2.1, rfl⟩

theorem empty_input_no_chunks_witness :
    pyStrip "  \n\t " = "" ∧
      createChunks String.length "  \n\t " 30 5 = [] ∧
      splitLongText String.length " \n " 30 5 = [] := by
  have h := empty_input_no_chunks String.length "  \n\t " " \n " 30 5
  exact ⟨by decide, h.1 (by decide), h.2.2 (by decide)⟩

/-- C2 (failing evaluation): with the character-count token strategy, the
three-paragraph input below under `max_tokens = 19`, `overlap_tokens = 0`
yields a first chunk of two whole paragraphs (two sentences) whose recorded
`token_count` is 20 > 19, and a continuation chunk of 38 > 19 — neither is
a single indivisible sentence. The separator tokens of the `"\n\n"` join and
the continuation heading are never counted against the budget, so the
documented `token_count <= max_tokens` invariant fails beyond its single
documented exception. -/
theorem token_bound_violation_eval :
    (createChunks String.length "One aaaa.\n\nTwo bbbb.\n\nThree cc." 19 0).map
        (fun c => (c.content, c.token_count)) =
      [("One aaaa.\n\nTwo bbbb.", 20),
       ("[Continuação de: One aaaa.]\n\nThree cc.", 38)] ∧
    (pySplitParas "One aaaa.\n\nTwo bbbb.").length = 2 ∧
    (pySplitSents "One aaaa.\n\nTwo bbbb.").length = 2 ∧
    20 > 19 := by
  refine ⟨by decide, by decide, by decide, by decide⟩

/-!
## Lemmas: the retrieval model
-/

theorem limitSelect_nil {α : Type} (ord : α → α → Prop) (n : Nat) :
    limitSelect ord n [] [] :=
  ⟨[], by simp, List.sorted_nil, by simp, by simp⟩

theorem limitSelect_of_nil {α : Type} (ord : α → α → Prop) (n : Nat)
    (sel : List α) (h : limitSelect ord n [] sel) : sel = [] := by
  obtain ⟨rest, hperm, -, -, -⟩ := h
  have := List.perm_nil.mp hperm
  exact (List.append_eq_nil.mp this).1

theorem limitSelect_subset {α : Type} (ord : α → α → Prop) (n : Nat)
    (all sel : List α) (h : limitSelect ord n all sel) : ∀ x ∈ sel, x ∈ all := by
  obtain ⟨rest, hperm, -, -, -⟩ := h
  intro x hx
  exact hperm.subset (List.mem_append.mpr (Or.inl hx))

theorem execQueryResult_nil (p : SearchParams) (dist tsr : Int → ℚ)
    (kwMatch : Int → Bool) (th : Bool) (l : Nat) :
    isExecuteQueryResult [] [] p dist tsr kwMatch th l [] :=
  ⟨[], [], limitSelect_nil _ _, limitSelect_nil _ _, limitSelect_nil _ _⟩

theorem matchesWhere_status_owner (p : SearchParams) (r : Row)
    (h : matchesWhere p r = true) :
    r.doc.status = "processed" ∧ (p.isAdmin = true ∨ r.doc.user_id = p.userId) := by
  unfold matchesWhere at h
  simp only [Bool.and_eq_true, Bool.or_eq_true, beq_iff_eq] at h
  exact ⟨h.1.1.1, h.1.1.2⟩

theorem vectorCands_filtered (chunks : List ChunkRow) (docs : List DocRow)
    (p : SearchParams) (dist : Int → ℚ) (th : Bool) :
    ∀ r ∈ vectorCands chunks docs p dist th,
      r ∈ joinRows chunks docs ∧ matchesWhere p r = true := by
  intro r hr
  unfold vectorCands at hr
  refine ⟨List.mem_of_mem_filter hr, ?_⟩
  have h2 := List.of_mem_filter hr
  simp only [Bool.and_eq_true] at h2
  exact h2.1

theorem keywordCands_filtered (chunks : List ChunkRow) (docs : List DocRow)
    (p : SearchParams) (kwMatch : Int → Bool) :
    ∀ r ∈ keywordCands chunks docs p kwMatch,
      r ∈ joinRows chunks docs ∧ matchesWhere p r = true := by
  intro r hr
  unfold keywordCands at hr
  refine ⟨List.mem_of_mem_filter hr, ?_⟩
  have h2 := List.of_mem_filter hr
  simp only [Bool.and_eq_true] at h2
  exact h2.1

theorem fullJoinJ_row_mem (vsel ksel : List Row) (dist : Int → ℚ) (sr kr : Row → Nat) :
    ∀ j ∈ fullJoinJ vsel ksel dist sr kr, j.row ∈ vsel ∨ j.row ∈ ksel := by
  intro j hj
  unfold fullJoinJ at hj
  rcases List.mem_append.mp hj with h | h
  · obtain ⟨v, hv, rfl⟩ := List.mem_map.mp h
    exact Or.inl hv
  · obtain ⟨k, hk, rfl⟩ := List.mem_map.mp h
    exact Or.inr (List.mem_of_mem_filter hk)

/-!
## Claim theorems: the retrieval tool (C1, C3, C4, C5, C6)
-/

/-- C5 counterexample: on the id filter `"abc,3"` the code's parse fails as
a whole (`int("abc")` raises, the handler drops the entire filter), while
the spec's claimed behaviour keeps the valid id 3. Consequently no id
clause is built, and a chunk of document 5 — which the claimed
filtered-by-3 search would exclude — passes the WHERE predicate. -/
theorem id_filter_drop_counterexample :
    pyParseIds "abc,3" = none ∧
    specParseIds "abc,3" = some [3] ∧
    (buildParams false 7 "abc,3" "").docIds = none ∧
    matchesWhere (buildParams false 7 "abc,3" "")
      ⟨⟨1, 5, "texto", some "texto_geral", 0, 3⟩, ⟨5, 7, "processed", "f.pdf"⟩⟩ = true := by
  exact ⟨by decide, by decide, by decide, by decide⟩

/-- C5 amended: a non-numeric token inside the id filter makes the parse
raise `ValueError`, and the handler drops the ENTIRE id filter (with a
logged warning) rather than just the bad token — the search then proceeds
with no id constraint at all, exactly as if no id filter had been supplied;
the call itself does not fail. -/
theorem id_filter_whole_drop (a : Bool) (u : Int) (fn : String) :
    (buildParams a u "abc,3" fn).docIds = none ∧
    buildParams a u "abc,3" fn = buildParams a u "" fn := by
  constructor
  · rfl
  · rfl

/-- C6: an embedding-provider failure or a chunk-store read failure (in the
strict or the fallback pass) surfaces as the distinguished error outcome of
the tool — the whole call fails, no fusion result is produced — and that
error outcome is distinct from the empty-result and ordinary-result
outcomes, so the failure is never silently converted into either. -/
theorem failure_surfacing (e : String) (v : List ℚ)
    (runQuery : Bool → Nat → Except String (List JRow)) (ids fn : String) :
    (ragSearchModel (Except.error e) runQuery ids fn
        = (RagOutcome.errorMsg e, false)) ∧
    (runQuery true 10 = Except.error e →
      ragSearchModel (Except.ok v) runQuery ids fn
        = (RagOutcome.errorMsg e, false)) ∧
    (runQuery true 10 = Except.ok [] → isFilteredStr ids fn = true →
      runQuery false 5 = Except.error e →
      ragSearchModel (Except.ok v) runQuery ids fn
        = (RagOutcome.errorMsg e, true)) ∧
    (∀ msg rows, RagOutcome.errorMsg msg ≠ RagOutcome.found rows) ∧
    (∀ msg, RagOutcome.errorMsg msg ≠ RagOutcome.noneFound) ∧
    (∀ msg s, RagOutcome.errorMsg msg ≠ RagOutcome.noneFoundWithIdHint s) := by
  refine ⟨rfl, ?_, ?_, ?_, ?_, ?_⟩
  · intro h
    simp [ragSearchModel, h]
  · intro h1 h2 h3
    simp [ragSearchModel, h1, h2, h3]
  · intro msg rows h; cases h
  · intro msg h; cases h
  · intro msg s h; cases h

theorem failure_surfacing_witness :
    ragSearchModel (Except.error "embedding indisponivel") (fun _ _ => Except.ok []) "1" ""
        = (RagOutcome.errorMsg "embedding indisponivel", false) ∧
      ragSearchModel (Except.ok []) (fun _ _ => Except.error "leitura falhou") "1" ""
        = (RagOutcome.errorMsg "leitura falhou", false) := by
  have h1 := failure_surfacing "embedding indisponivel" []
    (fun _ _ => Except.ok []) "1" ""
  have h2 := failure_surfacing "leitura falhou" []
    (fun _ _ => Except.error "leitura falhou") "1" ""
  exact ⟨h1.1, h2.2.1 rfl⟩

/-- C4: the relaxed fallback pass (threshold removed, limit 5) runs exactly
when the strict pass (threshold on, limit 10) succeeded with zero rows and
a scope filter string was supplied; a non-empty strict result is returned
as-is, never overridden; and when the fallback runs, the returned outcome
is that of the `use_threshold=False, limit=5` query. The hypothesis ties
the query oracle to the relational semantics of the hybrid SQL query. -/
theorem fallback_gating (v : List ℚ) (chunks : List ChunkRow) (docs : List DocRow)
    (p : SearchParams) (dist tsr : Int → ℚ) (kwMatch : Int → Bool)
    (runQuery : Bool → Nat → Except String (List JRow)) (ids fn : String)
    (hq : ∀ th l r, runQuery th l = Except.ok r →
      isExecuteQueryResult chunks docs p dist tsr kwMatch th l r) :
    ((ragSearchModel (Except.ok v) runQuery ids fn).2 = true ↔
      (runQuery true 10 = Except.ok [] ∧ isFilteredStr ids fn = true)) ∧
    (∀ rows, runQuery true 10 = Except.ok rows → rows ≠ [] →
      ragSearchModel (Except.ok v) runQuery ids fn = (finishRows rows ids, false)) ∧
    ((ragSearchModel (Except.ok v) runQuery ids fn).2 = true →
      (ragSearchModel (Except.ok v) runQuery ids fn).1
        = (match runQuery false 5 with
           | Except.error err => RagOutcome.errorMsg err
           | Except.ok rows2 => finishRows rows2 ids)) := by
  cases hrun : runQuery true 10 with
  | error e =>
    have hmod : ragSearchModel (Except.ok v) runQuery ids fn
        = (RagOutcome.errorMsg e, false) := by
      simp [ragSearchModel, hrun]
    refine ⟨?_, ?_, ?_⟩
    · rw [hmod]
      constructor
      · intro h; cases h
      · rintro ⟨h1, -⟩; cases h1
    · intro rows h; cases h
    · rw [hmod]
      intro h; cases h
  | ok rows =>
    have hmod : ragSearchModel (Except.ok v) runQuery ids fn
        = if rows = [] ∧ isFilteredStr ids fn = true then
            (match runQuery false 5 with
             | Except.error err => (RagOutcome.errorMsg err, true)
             | Except.ok rows2 => (finishRows rows2 ids, true))
          else (finishRows rows ids, false) := by
      simp [ragSearchModel, hrun]
    by_cases hif : rows = [] ∧ isFilteredStr ids fn = true
    · rw [if_pos hif] at hmod
      refine ⟨?_, ?_, ?_⟩
      · rw [hmod]
        constructor
        · intro _
          exact ⟨by rw [hif.1], hif.2⟩
        · intro _
          cases hfb : runQuery false 5 with
          | error err => rfl
          | ok rows2 => rfl
      · intro rows' h hne
        injection h with h
        rw [← h] at hne
        exact absurd hif.1 hne
      · intro _
        rw [hmod]
        cases hfb : runQuery false 5 with
        | error err => rfl
        | ok rows2 => rfl
    · rw [if_neg hif] at hmod
      refine ⟨?_, ?_, ?_⟩
      · rw [hmod]
        constructor
        · intro h; cases h
        · rintro ⟨h1, h2⟩
          injection h1 with h1
          exact absurd ⟨h1, h2⟩ hif
      · intro rows' h _
        injection h with h
        subst h
        exact hmod
      · rw [hmod]
        intro h; cases h

theorem fallback_gating_witness :
    (ragSearchModel (Except.ok ([] : List ℚ)) (fun _ _ => Except.ok []) "42" "").2
      = true := by
  have h := fallback_gating [] [] [] ⟨false, 1, none, none⟩ (fun _ => 0) (fun _ => 0)
    (fun _ => false) (fun _ _ => Except.ok []) "42" ""
    (fun th l r hr => by
      injection hr with hr
      rw [← hr]
      exact execQueryResult_nil _ _ _ _ th l)
  exact h.1.mpr ⟨rfl, by decide⟩

/-- C3: both retrieval channels filter candidates by
`status = 'processed'`, and non-privileged callers additionally by document
ownership; hence every returned row satisfies the same predicate, while a
privileged caller is restricted only to processed documents. If every
stored chunk belongs to a document owned by someone else, a non-privileged
caller gets zero rows — even where the content matches lexically or
semantically. -/
theorem scope_enforcement (chunks : List ChunkRow) (docs : List DocRow)
    (p : SearchParams) (dist tsr : Int → ℚ) (kwMatch : Int → Bool)
    (th : Bool) (l : Nat) (out : List JRow)
    (hout : isExecuteQueryResult chunks docs p dist tsr kwMatch th l out) :
    (∀ r ∈ vectorCands chunks docs p dist th,
      r.doc.status = "processed" ∧ (p.isAdmin = true ∨ r.doc.user_id = p.userId)) ∧
    (∀ r ∈ keywordCands chunks docs p kwMatch,
      r.doc.status = "processed" ∧ (p.isAdmin = true ∨ r.doc.user_id = p.userId)) ∧
    (∀ j ∈ out,
      j.row.doc.status = "processed" ∧
        (p.isAdmin = true ∨ j.row.doc.user_id = p.userId)) ∧
    (p.isAdmin = false → (∀ r ∈ joinRows chunks docs, r.doc.user_id ≠ p.userId) →
      out = []) := by
  obtain ⟨vsel, ksel, hv, hk, hj⟩ := hout
  refine ⟨?_, ?_, ?_, ?_⟩
  · intro r hr
    exact matchesWhere_status_owner p r (vectorCands_filtered chunks docs p dist th r hr).2
  · intro r hr
    exact matchesWhere_status_owner p r (keywordCands_filtered chunks docs p kwMatch r hr).2
  · intro j hjmem
    have hjoin := limitSelect_subset _ _ _ _ hj j hjmem
    rcases fullJoinJ_row_mem vsel ksel dist _ _ j hjoin with hvm | hkm
    · have := limitSelect_subset _ _ _ _ hv j.row hvm
      exact matchesWhere_status_owner p j.row
        (vectorCands_filtered chunks docs p dist th j.row this).2
    · have := limitSelect_subset _ _ _ _ hk j.row hkm
      exact matchesWhere_status_owner p j.row
        (keywordCands_filtered chunks docs p kwMatch j.row this).2
  · intro hadmin howner
    have hwfalse : ∀ r ∈ joinRows chunks docs, matchesWhere p r = false := by
      intro r hr
      by_contra hcontra
      have htrue : matchesWhere p r = true := by
        cases hw : matchesWhere p r with
        | false => exact absurd hw hcontra
        | true => rfl
      rcases (matchesWhere_status_owner p r htrue).2 with h | h
      · rw [hadmin] at h; cases h
      · exact howner r hr h
    have hvc : vectorCands chunks docs p dist th = [] := by
      rw [vectorCands, List.filter_eq_nil_iff]
      intro r hr
      simp [hwfalse r hr]
    have hkc : keywordCands chunks docs p kwMatch = [] := by
      rw [keywordCands, List.filter_eq_nil_iff]
      intro r hr
      simp [hwfalse r hr]
    rw [hvc] at hv
    rw [hkc] at hk
    have hvsel := limitSelect_of_nil _ _ _ hv
    have hksel := limitSelect_of_nil _ _ _ hk
    subst hvsel; subst hksel
    exact limitSelect_of_nil _ _ _ hj

theorem scope_enforcement_witness :
    isExecuteQueryResult
        [⟨1, 1, "conteudo", some "texto_geral", 0, 2⟩]
        [⟨1, 1, "processed", "a.pdf"⟩]
        ⟨false, 1, none, none⟩ (fun _ => mkRat 1 10) (fun _ => 1) (fun _ => false)
        true 10
        [⟨⟨⟨1, 1, "conteudo", some "texto_geral", 0, 2⟩, ⟨1, 1, "processed", "a.pdf"⟩⟩,
          some 1, none, mkRat 1 10⟩] ∧
      (⟨⟨⟨1, 1, "conteudo", some "texto_geral", 0, 2⟩, ⟨1, 1, "processed", "a.pdf"⟩⟩,
          some 1, none, mkRat 1 10⟩ : JRow).row.doc.status = "processed" ∧
      ((⟨false, 1, none, none⟩ : SearchParams).isAdmin = true ∨
        (⟨⟨⟨1, 1, "conteudo", some "texto_geral", 0, 2⟩, ⟨1, 1, "processed", "a.pdf"⟩⟩,
          some 1, none, mkRat 1 10⟩ : JRow).row.doc.user_id
            = (⟨false, 1, none, none⟩ : SearchParams).userId) := by
  have hout : isExecuteQueryResult
      [⟨1, 1, "conteudo", some "texto_geral", 0, 2⟩]
      [⟨1, 1, "processed", "a.pdf"⟩]
      ⟨false, 1, none, none⟩ (fun _ => mkRat 1 10) (fun _ => 1) (fun _ => false)
      true 10
      [⟨⟨⟨1, 1, "conteudo", some "texto_geral", 0, 2⟩, ⟨1, 1, "processed", "a.pdf"⟩⟩,
        some 1, none, mkRat 1 10⟩] := by
    refine ⟨[⟨⟨1, 1, "conteudo", some "texto_geral", 0, 2⟩, ⟨1, 1, "processed", "a.pdf"⟩⟩],
      [], ⟨[], by decide, ?_, by decide, by simp⟩, ⟨[], by decide, ?_, by decide, by simp⟩,
      ⟨[], by decide, ?_, by decide, by simp⟩⟩
    · exact List.sorted_singleton _
    · exact List.sorted_nil
    · exact List.sorted_singleton _
  have h := scope_enforcement _ _ _ _ _ _ _ _ _ hout
  refine ⟨hout, ?_, ?_⟩
  · exact (h.2.2.1 _ (by simp)).1
  · exact (h.2.2.1 _ (by simp)).2

/-- C1 (amended): any result of the hybrid query is ordered by descending
fused score, where the score is `1/(60+semantic_rank) + 1/(60+lexical_rank)`
with an absent channel contributing 0; a chunk ranked #1 in both channels
scores exactly `2/61`, a chunk ranked #1 in exactly one channel scores
`1/61`, and the former is always returned strictly above the latter. (The
claimed deterministic tie-break by semantic then lexical rank is NOT part
of the query — `ORDER BY rrf_score DESC` is its only sort key — see the
counterexample.) -/
theorem rrf_fusion_order_and_monotonicity (chunks : List ChunkRow)
    (docs : List DocRow) (p : SearchParams) (dist tsr : Int → ℚ)
    (kwMatch : Int → Bool) (th : Bool) (l : Nat) (out : List JRow)
    (hout : isExecuteQueryResult chunks docs p dist tsr kwMatch th l out) :
    out.Sorted rrfOrd ∧
    (∀ j ∈ out, j.semRank = some 1 ∧ j.kwRank = some 1 → rrfScore j = 2 / 61) ∧
    (∀ j ∈ out, (j.semRank = some 1 ∧ j.kwRank = none) ∨
        (j.semRank = none ∧ j.kwRank = some 1) → rrfScore j = 1 / 61) ∧
    (∀ (i k : Fin out.length),
      ((out.get i).semRank = some 1 ∧ (out.get i).kwRank = some 1) →
      (((out.get k).semRank = some 1 ∧ (out.get k).kwRank = none) ∨
        ((out.get k).semRank = none ∧ (out.get k).kwRank = some 1)) →
      (i : Nat) < (k : Nat)) := by
  obtain ⟨vsel, ksel, -, -, hj⟩ := hout
  obtain ⟨rest, hperm, hsorted, hlen, hbound⟩ := hj
  have hboth : ∀ j : JRow, j.semRank = some 1 ∧ j.kwRank = some 1 →
      rrfScore j = 2 / 61 := by
    rintro j ⟨h1, h2⟩
    simp only [rrfScore, h1, h2]
    norm_num
  have hsolo : ∀ j : JRow, (j.semRank = some 1 ∧ j.kwRank = none) ∨
      (j.semRank = none ∧ j.kwRank = some 1) → rrfScore j = 1 / 61 := by
    rintro j (⟨h1, h2⟩ | ⟨h1, h2⟩) <;> simp only [rrfScore, h1, h2] <;> norm_num
  refine ⟨hsorted, fun j _ h => hboth j h, fun j _ h => hsolo j h, ?_⟩
  intro i k hB hS
  have hscoreI : rrfScore (out.get i) = 2 / 61 := hboth _ hB
  have hscoreK : rrfScore (out.get k) = 1 / 61 := hsolo _ hS
  rcases Nat.lt_trichotomy (i : Nat) (k : Nat) with h | h | h
  · exact h
  · exfalso
    have : out.get i = out.get k := by
      congr 1
      exact Fin.ext h
    rw [this] at hB
    rcases hS with ⟨h1, h2⟩ | ⟨h1, h2⟩
    · rw [hB.2] at h2; cases h2
    · rw [hB.1] at h1; cases h1
  · exfalso
    have hrel := List.pairwise_iff_get.mp hsorted k i h
    unfold rrfOrd at hrel
    rw [hscoreI, hscoreK] at hrel
    norm_num at hrel

theorem rrf_fusion_order_witness :
    isExecuteQueryResult
        [⟨1, 1, "um", some "texto_geral", 0, 1⟩, ⟨2, 1, "dois", some "texto_geral", 1, 1⟩]
        [⟨1, 1, "processed", "a.pdf"⟩]
        ⟨false, 1, none, none⟩
        (fun i => if i = 1 then mkRat 1 10 else mkRat 9 10) (fun _ => 1)
        (fun _ => true) true 10
        [⟨⟨⟨1, 1, "um", some "texto_geral", 0, 1⟩, ⟨1, 1, "processed", "a.pdf"⟩⟩,
            some 1, some 1, mkRat 1 10⟩,
         ⟨⟨⟨2, 1, "dois", some "texto_geral", 1, 1⟩, ⟨1, 1, "processed", "a.pdf"⟩⟩,
            none, some 1, 1⟩] ∧
      (0 : Nat) < 1 := by
  have hout : isExecuteQueryResult
      [⟨1, 1, "um", some "texto_geral", 0, 1⟩, ⟨2, 1, "dois", some "texto_geral", 1, 1⟩]
      [⟨1, 1, "processed", "a.pdf"⟩]
      ⟨false, 1, none, none⟩
      (fun i => if i = 1 then mkRat 1 10 else mkRat 9 10) (fun _ => 1)
      (fun _ => true) true 10
      [⟨⟨⟨1, 1, "um", some "texto_geral", 0, 1⟩, ⟨1, 1, "processed", "a.pdf"⟩⟩,
          some 1, some 1, mkRat 1 10⟩,
       ⟨⟨⟨2, 1, "dois", some "texto_geral", 1, 1⟩, ⟨1, 1, "processed", "a.pdf"⟩⟩,
          none, some 1, 1⟩] := by
    refine ⟨[⟨⟨1, 1, "um", some "texto_geral", 0, 1⟩, ⟨1, 1, "processed", "a.pdf"⟩⟩],
      [⟨⟨1, 1, "um", some "texto_geral", 0, 1⟩, ⟨1, 1, "processed", "a.pdf"⟩⟩,
       ⟨⟨2, 1, "dois", some "texto_geral", 1, 1⟩, ⟨1, 1, "processed", "a.pdf"⟩⟩],
      ⟨[], by decide, List.sorted_singleton _, by decide, by simp⟩,
      ⟨[], by decide, ?_, by decide, by simp⟩,
      ⟨[], by decide, ?_, by decide, by simp⟩⟩
    · exact List.sorted_cons.mpr ⟨by intro b hb; rw [List.mem_singleton.mp hb]; decide,
        List.sorted_singleton _⟩
    · refine List.sorted_cons.mpr ⟨?_, List.sorted_singleton _⟩
      intro b hb
      rw [List.mem_singleton.mp hb]
      show rrfScore _ ≤ rrfScore _
      simp only [rrfScore]
      norm_num
  have h := rrf_fusion_order_and_monotonicity _ _ _ _ _ _ _ _ _ hout
  exact ⟨hout, h.2.2.2 ⟨0, by decide⟩ ⟨1, by decide⟩ (by constructor <;> rfl)
    (Or.inr (by constructor <;> rfl))⟩

/-- C1 counterexample: the final SELECT's only sort key is
`rrf_score DESC`, so rows with equal fused scores may come back in any
order. With one chunk ranked #1 semantically (no lexical match) and one
ranked #1 lexically (outside the distance threshold), both score `1/61`,
and the result that lists the lexical-only row first is a valid query
result — yet it violates the claimed semantic-then-lexical tie-break
(which would demand the semantic rank 1 row above the rank-1000-sentinel
row). -/
theorem rrf_tiebreak_counterexample :
    isExecuteQueryResult
        [⟨1, 1, "um", some "texto_geral", 0, 1⟩, ⟨2, 1, "dois", some "texto_geral", 1, 1⟩]
        [⟨1, 1, "processed", "a.pdf"⟩]
        ⟨false, 1, none, none⟩
        (fun i => if i = 1 then mkRat 1 10 else mkRat 9 10) (fun _ => 1)
        (fun i => decide (i = 2)) true 10
        [⟨⟨⟨2, 1, "dois", some "texto_geral", 1, 1⟩, ⟨1, 1, "processed", "a.pdf"⟩⟩,
            none, some 1, 1⟩,
         ⟨⟨⟨1, 1, "um", some "texto_geral", 0, 1⟩, ⟨1, 1, "processed", "a.pdf"⟩⟩,
            some 1, none, mkRat 1 10⟩] ∧
      List.Sorted rrfOrd
        [⟨⟨⟨2, 1, "dois", some "texto_geral", 1, 1⟩, ⟨1, 1, "processed", "a.pdf"⟩⟩,
            none, some 1, 1⟩,
         ⟨⟨⟨1, 1, "um", some "texto_geral", 0, 1⟩, ⟨1, 1, "processed", "a.pdf"⟩⟩,
            some 1, none, mkRat 1 10⟩] ∧
      ¬ List.Sorted specFusionOrder
        [⟨⟨⟨2, 1, "dois", some "texto_geral", 1, 1⟩, ⟨1, 1, "processed", "a.pdf"⟩⟩,
            none, some 1, 1⟩,
         ⟨⟨⟨1, 1, "um", some "texto_geral", 0, 1⟩, ⟨1, 1, "processed", "a.pdf"⟩⟩,
            some 1, none, mkRat 1 10⟩] := by
  have hsortedTie : List.Sorted rrfOrd
      [⟨⟨⟨2, 1, "dois", some "texto_geral", 1, 1⟩, ⟨1, 1, "processed", "a.pdf"⟩⟩,
          none, some 1, 1⟩,
       ⟨⟨⟨1, 1, "um", some "texto_geral", 0, 1⟩, ⟨1, 1, "processed", "a.pdf"⟩⟩,
          some 1, none, mkRat 1 10⟩] := by
    refine List.sorted_cons.mpr ⟨?_, List.sorted_singleton _⟩
    intro b hb
    rw [List.mem_singleton.mp hb]
    show rrfScore _ ≤ rrfScore _
    simp only [rrfScore]
    norm_num
  refine ⟨?_, hsortedTie, ?_⟩
  · refine ⟨[⟨⟨1, 1, "um", some "texto_geral", 0, 1⟩, ⟨1, 1, "processed", "a.pdf"⟩⟩],
      [⟨⟨2, 1, "dois", some "texto_geral", 1, 1⟩, ⟨1, 1, "processed", "a.pdf"⟩⟩],
      ⟨[], by decide, List.sorted_singleton _, by decide, by simp⟩,
      ⟨[], by decide, List.sorted_singleton _, by decide, by simp⟩,
      ⟨[], by decide, hsortedTie, by decide, by simp⟩⟩
  · intro hsp
    have h01 := (List.sorted_cons.mp hsp).1
      ⟨⟨⟨1, 1, "um", some "texto_geral", 0, 1⟩, ⟨1, 1, "processed", "a.pdf"⟩⟩,
        some 1, none, mkRat 1 10⟩ (by simp)
    rcases h01 with hlt | ⟨heq, hsem | ⟨hsemEq, -⟩⟩
    · simp only [rrfScore] at hlt
      norm_num at hlt
    · simp at hsem
    · simp at hsemEq

end SmartDocs
